import Mathlib

/-
Verification of the Glossa interpreter (`glossa_compiler.py`): a shallow
embedding of its data model, expression evaluator, statement executor,
routine dispatcher, debugger hook protocol, and the statement-level part of
its recursive-descent parser, together with theorems settling the frozen
claims about the natural-language specification.

Modelling conventions, used throughout:
  * Python `int` is `Int`; Python `float` is modelled as `ℚ` (the source
    only ever constructs floats from decimal literals and arithmetic on
    them; rounding of binary floating point is not modelled — no claim
    depends on it).
  * Python's `%` on integers is floored (`Int.fmod`), its `//` is floored
    (`Int.fdiv`), and `int(x)` on a float truncates toward zero.
  * Exceptions are explicit `Except` values.  The interpreter's
    `RuntimeErrorGlossa` is one constructor among the Python-level
    exception kinds, so that errors the source raises through plain Python
    (`ValueError` from `int(raw)`, `ZeroDivisionError`) stay distinguishable.
  * Source line numbers, which in the source only feed error-message text,
    are not tracked; error messages are kept but without the line suffix.
  * The source's `procedures`/`functions` tables are shared by reference
    between every environment of a run (a child environment copies its
    parent's references), so they are carried once in the interpreter state.
-/

namespace Glossa

/-- The four Glossa base types (`TYPE_INT`, `TYPE_REAL`, `TYPE_CHAR`, `TYPE_BOOL`). -/
inductive Ty where
  | int : Ty
  | real : Ty
  | char : Ty
  | bool : Ty
deriving DecidableEq

/-- Runtime values: Python ints, floats (as rationals), strings and booleans. -/
inductive Value where
  | vint (i : Int) : Value
  | vreal (q : ℚ) : Value
  | vstr (s : String) : Value
  | vbool (b : Bool) : Value
deriving DecidableEq

/-- Python-level exception kinds observable by the interpreter's caller.
`glossa` is the interpreter's own `RuntimeErrorGlossa`; the other kinds are
plain Python exceptions the source can leak (`ValueError` from `int`/`float`
on bad text, `ZeroDivisionError` from an unguarded division, `TypeError`
from a mixed-type operation). -/
inductive PyErr where
  | glossa (msg : String) : PyErr
  | valueError : PyErr
  | zeroDivision : PyErr
  | typeError : PyErr
deriving DecidableEq

/-- Python `int(float)`: truncation toward zero, i.e. the numerator
divided by the denominator with `Int.tdiv` (T-division rounds toward
zero). -/
def pyTruncRat (q : ℚ) : Int := q.num.tdiv (q.den : Int)

/-- `Env._coerce`: coerce a value to a declared base type.  Booleans become
0/1 for the numeric types, reals are truncated for integer targets,
integers are widened for real targets; any cross-family value raises
`RuntimeErrorGlossa`. -/
def coerce (tp : Ty) (v : Value) : Except PyErr Value :=
  match tp with
  | .int =>
    match v with
    | .vbool b => .ok (.vint (if b then 1 else 0))
    | .vreal q => .ok (.vint (pyTruncRat q))
    | .vint i => .ok (.vint i)
    | .vstr _ => .error (.glossa "Αναμενόταν ακέραιος")
  | .real =>
    match v with
    | .vbool b => .ok (.vreal (if b then 1 else 0))
    | .vint i => .ok (.vreal (i : ℚ))
    | .vreal q => .ok (.vreal q)
    | .vstr _ => .error (.glossa "Αναμενόταν πραγματικός")
  | .char =>
    match v with
    | .vstr s => .ok (.vstr s)
    | _ => .error (.glossa "Αναμενόταν αλφαριθμητικό")
  | .bool =>
    match v with
    | .vbool b => .ok (.vbool b)
    | _ => .error (.glossa "Αναμενόταν λογική τιμή")

/-- `_coerce_index`: convert an index value to an integer.  Booleans count
as 0/1, a float passes only when it `is_integer()` (denominator 1), and
anything else raises `RuntimeErrorGlossa`. -/
def coerceIndex (v : Value) : Except PyErr Int :=
  match v with
  | .vbool b => .ok (if b then 1 else 0)
  | .vreal q =>
    if q.den = 1 then .ok q.num
    else .error (.glossa "Ο δείκτης πίνακα πρέπει να είναι ακέραιος")
  | .vint i => .ok i
  | .vstr _ => .error (.glossa "Ο δείκτης πίνακα πρέπει να είναι ακέραιος")

/-- An ASCII blank, for the model of `str.strip()`. -/
def isBlankChar (c : Char) : Bool :=
  c = ' ' ∨ c = '\t' ∨ c = '\n' ∨ c = '\r'

/-- Python `str.strip()` restricted to ASCII blanks, as used on `ΔΙΑΒΑΣΕ`
input lines. -/
def pyStrip (s : String) : String :=
  .mk (((s.data.dropWhile isBlankChar).reverse.dropWhile isBlankChar).reverse)

/-- Python `str.upper()`, restricted to ASCII letters (the recognised
boolean spellings the interpreter compares against are already upper-case
Greek or ASCII, so nothing in the claims depends on Greek case folding). -/
def pyUpper (s : String) : String := .mk (s.data.map Char.toUpper)

/-- One character of a decimal literal. -/
def isDigitChar (c : Char) : Bool := '0' ≤ c && c ≤ '9'

/-- Digits to the natural number they denote (most significant first). -/
def digitsVal : List Char → Nat
  | [] => 0
  | c :: cs => (c.toNat - '0'.toNat) * (10 ^ cs.length) + digitsVal cs

/-- Python `int(raw)` on a string: optional sign then a nonempty digit run
(after stripping surrounding blanks); anything else raises `ValueError`.
(CPython also tolerates underscores between digits and unicode digits;
nothing in the program or the claims feeds it those.) -/
def pyParseInt (raw : String) : Except PyErr Int :=
  let cs := (pyStrip raw).data
  match cs with
  | '-' :: rest =>
    if rest ≠ [] ∧ rest.all isDigitChar then .ok (-(digitsVal rest : Int))
    else .error .valueError
  | '+' :: rest =>
    if rest ≠ [] ∧ rest.all isDigitChar then .ok (digitsVal rest : Int)
    else .error .valueError
  | _ =>
    if cs ≠ [] ∧ cs.all isDigitChar then .ok (digitsVal cs : Int)
    else .error .valueError

/-- Python `float(raw)` on a string, restricted to plain decimal forms
`[sign] digits [. digits]` (the forms the interpreter's users ever feed
it); anything else raises `ValueError`. -/
def pyParseFrac (cs : List Char) : Except PyErr ℚ :=
  match cs.span isDigitChar with
  | (intPart, rest) =>
    match rest with
    | [] =>
      if intPart ≠ [] then .ok ((digitsVal intPart : Int) : ℚ)
      else .error .valueError
    | '.' :: fracPart =>
      if (intPart ≠ [] ∨ fracPart ≠ []) ∧ fracPart.all isDigitChar then
        .ok (((digitsVal intPart : Int) : ℚ)
          + (digitsVal fracPart : ℚ) / ((10 : ℚ) ^ fracPart.length))
      else .error .valueError
    | _ => .error .valueError

/-- Python `float(raw)` with an optional leading sign. -/
def pyParseFloat (raw : String) : Except PyErr ℚ :=
  let cs := (pyStrip raw).data
  match cs with
  | '-' :: rest => (pyParseFrac rest).map (fun q => -q)
  | '+' :: rest => pyParseFrac rest
  | _ => pyParseFrac cs

/-- `_convert_input`: convert one raw input line to the target's declared
base type.  Integer and real targets parse the text (raising a plain
Python `ValueError` on failure — not a `RuntimeErrorGlossa`); string
targets take the text verbatim; boolean targets are true exactly when the
trimmed upper-cased text is one of the recognised spellings. -/
def convertInput (raw : String) (baseType : Ty) : Except PyErr Value :=
  match baseType with
  | .int => (pyParseInt raw).map .vint
  | .real => (pyParseFloat raw).map .vreal
  | .char => .ok (.vstr raw)
  | .bool =>
    .ok (.vbool (let u := pyUpper (pyStrip raw)
      u = "ΑΛΗΘΗΣ" ∨ u = "TRUE" ∨ u = "1"))

/-- A value viewed as a Python number, when it is one (`bool` is a numeric
type in Python: `False` is 0 and `True` is 1). -/
def numQ : Value → Option ℚ
  | .vint i => some (i : ℚ)
  | .vreal q => some q
  | .vbool b => some (if b then 1 else 0)
  | .vstr _ => none

/-- Whether a value is an `int` in Python's sense (`int` or `bool`). -/
def intLike : Value → Option Int
  | .vint i => some i
  | .vbool b => some (if b then 1 else 0)
  | _ => none

/-- Python `==`: cross-type numeric comparison, string equality, and plain
`False` for any other mix (never an error). -/
def pyEq (l r : Value) : Bool :=
  match numQ l, numQ r with
  | some a, some b => a = b
  | _, _ =>
    match l, r with
    | .vstr a, .vstr b => a = b
    | _, _ => false

/-- Python `<`: numeric against numeric, string against string
(lexicographic); any other mix raises `TypeError`. -/
def pyLt (l r : Value) : Except PyErr Bool :=
  match numQ l, numQ r with
  | some a, some b => .ok (a < b)
  | _, _ =>
    match l, r with
    | .vstr a, .vstr b => .ok (a < b)
    | _, _ => .error .typeError

/-- Python `<=`. -/
def pyLe (l r : Value) : Except PyErr Bool :=
  match numQ l, numQ r with
  | some a, some b => .ok (a ≤ b)
  | _, _ =>
    match l, r with
    | .vstr a, .vstr b => .ok (a < b ∨ a = b)
    | _, _ => .error .typeError

/-- Python truthiness, as applied by `bool(v)`, `if`, `while` and `and`/`or`. -/
def pyTruthy : Value → Bool
  | .vint i => i ≠ 0
  | .vreal q => q ≠ 0
  | .vstr s => s ≠ ""
  | .vbool b => b

/-- Python `l + r`: numeric addition (result is an `int` only when both
sides are int-like), string concatenation, `TypeError` otherwise. -/
def pyAdd (l r : Value) : Except PyErr Value :=
  match intLike l, intLike r with
  | some a, some b => .ok (.vint (a + b))
  | _, _ =>
    match numQ l, numQ r with
    | some a, some b => .ok (.vreal (a + b))
    | _, _ =>
      match l, r with
      | .vstr a, .vstr b => .ok (.vstr (a ++ b))
      | _, _ => .error .typeError

/-- Python `l - r`. -/
def pySub (l r : Value) : Except PyErr Value :=
  match intLike l, intLike r with
  | some a, some b => .ok (.vint (a - b))
  | _, _ =>
    match numQ l, numQ r with
    | some a, some b => .ok (.vreal (a - b))
    | _, _ => .error .typeError

/-- Python string repetition `s * n` (negative counts give the empty string). -/
def strRepeat (s : String) (n : Int) : String :=
  String.join (List.replicate n.toNat s)

/-- Python `l * r`: numeric product, or string repetition when one side is
a string and the other an int-like value. -/
def pyMul (l r : Value) : Except PyErr Value :=
  match intLike l, intLike r with
  | some a, some b => .ok (.vint (a * b))
  | _, _ =>
    match numQ l, numQ r with
    | some a, some b => .ok (.vreal (a * b))
    | _, _ =>
      match l, r with
      | .vstr a, _ =>
        match intLike r with
        | some n => .ok (.vstr (strRepeat a n))
        | none => .error .typeError
      | _, .vstr b =>
        match intLike l with
        | some n => .ok (.vstr (strRepeat b n))
        | none => .error .typeError
      | _, _ => .error .typeError

/-- Python true division `l / r` (always a float on numbers).  The zero
divisor is already excluded by the caller's guard, but a rational division
by zero would yield 0 here; the interpreter never reaches that case. -/
def pyDivTrue (l r : Value) : Except PyErr Value :=
  match numQ l, numQ r with
  | some a, some b => .ok (.vreal (a / b))
  | _, _ => .error .typeError

/-- Python unary minus (note `-True` is the int `-1`). -/
def pyNeg (v : Value) : Except PyErr Value :=
  match intLike v with
  | some a => .ok (.vint (-a))
  | none =>
    match v with
    | .vreal q => .ok (.vreal (-q))
    | _ => .error .typeError

/-- Python unary plus (note `+True` is the int `1`). -/
def pyPos (v : Value) : Except PyErr Value :=
  match intLike v with
  | some a => .ok (.vint a)
  | none =>
    match v with
    | .vreal q => .ok (.vreal q)
    | _ => .error .typeError

/-- Python `int(x)` as applied to a `DIV`/`MOD` operand: identity on ints,
0/1 on booleans, truncation toward zero on floats, decimal parsing on
strings. -/
def pyToInt : Value → Except PyErr Int
  | .vint i => .ok i
  | .vbool b => .ok (if b then 1 else 0)
  | .vreal q => .ok (pyTruncRat q)
  | .vstr s => pyParseInt s

/-- The binary operators of the expression grammar.  The word `MOD` and the
symbol `%` are distinct token kinds in the source and both reach the same
evaluation arm, so both appear here. -/
inductive BOp where
  | plus | minus | mul | divide | div | mod | modSym
  | eq | ne | lt | le | gt | ge | land | lor
deriving DecidableEq

/-- The `BinOp` arm of `eval_expr`, applied to the two already-evaluated
operand values.  `DIV` and `MOD` first test the raw right operand against
zero (so `0`, `0.0` and `ΨΕΥΔΗΣ` are all caught) and then coerce both
sides with Python's `int(...)`; the divisions themselves are Python's
floored `//` and `%`.  A right operand that coerces to zero only after
`int(...)` (e.g. `0.5`) escapes the guard and raises a bare
`ZeroDivisionError`. -/
def evalBinOp (op : BOp) (l r : Value) : Except PyErr Value :=
  match op with
  | .plus => pyAdd l r
  | .minus => pySub l r
  | .mul => pyMul l r
  | .divide =>
    if pyEq r (.vint 0) then .error (.glossa "Διαίρεση με το μηδέν")
    else pyDivTrue l r
  | .div =>
    if pyEq r (.vint 0) then .error (.glossa "Διαίρεση με το μηδέν")
    else do
      let a ← pyToInt l
      let b ← pyToInt r
      if b = 0 then .error .zeroDivision else .ok (.vint (a.fdiv b))
  | .mod | .modSym =>
    if pyEq r (.vint 0) then .error (.glossa "Υπόλοιπο με το μηδέν")
    else do
      let a ← pyToInt l
      let b ← pyToInt r
      if b = 0 then .error .zeroDivision else .ok (.vint (a.fmod b))
  | .eq => .ok (.vbool (pyEq l r))
  | .ne => .ok (.vbool (!pyEq l r))
  | .lt => (pyLt l r).map .vbool
  | .le => (pyLe l r).map .vbool
  | .gt => (pyLt r l).map .vbool
  | .ge => (pyLe r l).map .vbool
  | .land => .ok (.vbool (pyTruthy l && pyTruthy r))
  | .lor => .ok (.vbool (pyTruthy l || pyTruthy r))

/-- A variable descriptor, the source's `VarInfo`: base type plus array
dimensions (`none` for scalars, one or two sizes for arrays). -/
structure VarInfo where
  ty : Ty
  dims : Option (List Nat)
deriving DecidableEq

/-- A stored runtime value: a scalar, a 1-D array, or a 2-D array (the
source stores Python lists in the same `values` dict). -/
inductive Cell where
  | scalar (v : Value) : Cell
  | arr1 (xs : List Value) : Cell
  | arr2 (xss : List (List Value)) : Cell
deriving DecidableEq

/-- Association-list lookup by name (the source uses Python dicts). -/
def alookup {α : Type} (name : String) : List (String × α) → Option α
  | [] => none
  | (k, v) :: rest => if k = name then some v else alookup name rest

/-- Association-list update of an existing key. -/
def aset {α : Type} (name : String) (v : α) : List (String × α) → List (String × α)
  | [] => []
  | (k, w) :: rest => if k = name then (k, v) :: rest else (k, w) :: aset name v rest

/-- Replace the value of `name` if present, preserving its position, else
append — exactly the effect of a Python dict assignment. -/
def asetOrAppend {α : Type} (name : String) (v : α) : List (String × α) → List (String × α)
  | [] => [(name, v)]
  | (k, w) :: rest =>
    if k = name then (k, v) :: rest else (k, w) :: asetOrAppend name v rest

/-- The runtime environment `Env`: declared types, current values, and the
parent link followed by `_find_owner`.  The routine tables held by the
source's `Env` are shared with the root environment and are modelled once
in the interpreter state. -/
inductive EnvT where
  | mk (types : List (String × VarInfo)) (values : List (String × Cell))
      (parent : Option EnvT) : EnvT

/-- The declaration table of an environment. -/
def EnvT.types : EnvT → List (String × VarInfo)
  | .mk ts _ _ => ts

/-- The value table of an environment. -/
def EnvT.values : EnvT → List (String × Cell)
  | .mk _ vs _ => vs

/-- The lexical parent of an environment. -/
def EnvT.parent : EnvT → Option EnvT
  | .mk _ _ p => p

/-- `Env._default_value`: the default for each base type. -/
def defaultValue : Ty → Value
  | .int => .vint 0
  | .real => .vreal 0
  | .char => .vstr ""
  | .bool => .vbool false

/-- `Env._make_array`: a default-filled 1-D or 2-D array; any other
dimensionality raises `RuntimeErrorGlossa`. -/
def makeArray (dims : List Nat) (tp : Ty) : Except PyErr Cell :=
  match dims with
  | [n] => .ok (.arr1 (List.replicate n (defaultValue tp)))
  | [rows, cols] =>
    .ok (.arr2 (List.replicate rows (List.replicate cols (defaultValue tp))))
  | _ => .error (.glossa "Υποστηρίζονται μόνο 1D ή 2D πίνακες")

/-- The default-value table the `Env` constructor builds: every declared
name gets its base default (scalars) or a default-filled block (arrays). -/
def envValues (types : List (String × VarInfo)) : Except PyErr (List (String × Cell)) :=
  types.foldlM
    (fun (acc : List (String × Cell)) entry => do
      match entry.2.dims with
      | none => pure (acc ++ [(entry.1, .scalar (defaultValue entry.2.ty))])
      | some dims => do
        let cell ← makeArray dims entry.2.ty
        pure (acc ++ [(entry.1, cell)]))
    []

/-- The `Env` constructor: the declared types, their default values, and
the given lexical parent. -/
def envNew (types : List (String × VarInfo)) (parent : Option EnvT) :
    Except PyErr EnvT :=
  (envValues types).map (fun values => .mk types values parent)

/-- `Env._find_owner` composed with `types[name]`, i.e. `Env.get_type`:
resolve a name through the parent chain to its descriptor. -/
def envGetType (env : EnvT) (name : String) : Except PyErr VarInfo :=
  match env with
  | .mk ts _ p =>
    match alookup name ts with
    | some info => .ok info
    | none =>
      match p with
      | some pe => envGetType pe name
      | none => .error (.glossa ("Άγνωστη μεταβλητή " ++ name))

/-- The bounds-checking loop of `Env._resolve_indices`: each (already
coerced) index must lie in `1..size` for its dimension; an in-range index
`i` becomes storage position `i - 1`. -/
def checkBounds (name : String) : List Int → List Nat → Except PyErr (List Nat)
  | [], [] => .ok []
  | i :: is, sz :: szs =>
    if i < 1 ∨ i > (sz : Int) then
      .error (.glossa ("Η πρόσβαση στον πίνακα " ++ name ++ " είναι εκτός ορίων"))
    else do
      let rest ← checkBounds name is szs
      .ok ((i - 1).toNat :: rest)
  | _, _ => .error (.glossa ("Ο πίνακας " ++ name ++ " αναμένει άλλον αριθμό δεικτών"))

/-- `Env._resolve_indices`, given the owner's descriptor: the name must be
an array, the index count must match the dimension count, and every index
must be in bounds. -/
def resolveIndices (name : String) (info : VarInfo) (indices : List Int) :
    Except PyErr (List Nat) :=
  match info.dims with
  | none => .error (.glossa ("Η " ++ name ++ " δεν είναι πίνακας"))
  | some dims =>
    if indices.length ≠ dims.length then
      .error (.glossa ("Ο πίνακας " ++ name ++ " αναμένει " ++
        toString dims.length ++ " δείκτες"))
    else checkBounds name indices dims

/-- Read a resolved position out of a stored cell. -/
def cellGet (cell : Cell) (pos : List Nat) : Except PyErr Value :=
  match cell, pos with
  | .arr1 xs, [i] => .ok (xs.getD i (.vint 0))
  | .arr2 xss, [i, j] => .ok ((xss.getD i []).getD j (.vint 0))
  | _, _ => .error (.glossa "Εσωτερικό σφάλμα πίνακα")

/-- Write a resolved position of a stored cell. -/
def cellSet (cell : Cell) (pos : List Nat) (v : Value) : Except PyErr Cell :=
  match cell, pos with
  | .arr1 xs, [i] => .ok (.arr1 (xs.set i v))
  | .arr2 xss, [i, j] => .ok (.arr2 (xss.set i ((xss.getD i []).set j v)))
  | _, _ => .error (.glossa "Εσωτερικό σφάλμα πίνακα")

/-- `Env.get`: resolve the owner through the parent chain, then read the
scalar (rejecting an array name used without indices) or the in-bounds
array element. -/
def envGet (env : EnvT) (name : String) (indices : Option (List Int)) :
    Except PyErr Value :=
  match env with
  | .mk ts vs p =>
    match alookup name ts with
    | some info =>
      match indices with
      | none =>
        match info.dims with
        | some _ => .error (.glossa ("Η " ++ name ++ " είναι πίνακας - δώσε δείκτες"))
        | none =>
          match alookup name vs with
          | some (.scalar v) => .ok v
          | _ => .error (.glossa "Εσωτερικό σφάλμα περιβάλλοντος")
      | some idxs => do
        let pos ← resolveIndices name info idxs
        match alookup name vs with
        | some cell => cellGet cell pos
        | none => .error (.glossa "Εσωτερικό σφάλμα περιβάλλοντος")
    | none =>
      match p with
      | some pe => envGet pe name indices
      | none => .error (.glossa ("Άγνωστη μεταβλητή " ++ name))

/-- `Env.set`: resolve the owner through the parent chain, coerce the value
to the owner's declared base type, and store it (whole scalar, or one array
element after bounds checking).  The returned environment is the caller's
chain with the owner updated in place, matching the source's mutation. -/
def envSet (env : EnvT) (name : String) (v : Value) (indices : Option (List Int)) :
    Except PyErr EnvT :=
  match env with
  | .mk ts vs p =>
    match alookup name ts with
    | some info =>
      match indices with
      | none =>
        match info.dims with
        | some _ =>
          .error (.glossa ("Η " ++ name ++ " είναι πίνακας - απαιτούνται δείκτες"))
        | none => do
          let cv ← coerce info.ty v
          .ok (.mk ts (aset name (.scalar cv) vs) p)
      | some idxs => do
        let pos ← resolveIndices name info idxs
        let cv ← coerce info.ty v
        match alookup name vs with
        | some cell => do
          let cell' ← cellSet cell pos cv
          .ok (.mk ts (aset name cell' vs) p)
        | none => .error (.glossa "Εσωτερικό σφάλμα περιβάλλοντος")
    | none =>
      match p with
      | some pe => do
        let pe' ← envSet pe name v indices
        .ok (.mk ts vs (some pe'))
      | none => .error (.glossa ("Άγνωστη μεταβλητή " ++ name))

/-- A numeric literal: the source's `Number` node holds a Python int or
float according to the presence of a decimal point. -/
inductive NumV where
  | i (n : Int) : NumV
  | f (q : ℚ) : NumV

/-- Unary operators (`MINUS`, `PLUS`, `NOT`). -/
inductive UOp where
  | neg | pos | lnot

mutual

/-- Expression AST nodes of the source. -/
inductive Expr where
  | num (v : NumV) : Expr
  | str (s : String) : Expr
  | boolLit (b : Bool) : Expr
  | var (name : String) : Expr
  | arrayRef (name : String) (idxs : List Expr) : Expr
  | funcCall (name : String) (args : List Expr) : Expr
  | unOp (op : UOp) (e : Expr) : Expr
  | binOp (op : BOp) (l : Expr) (r : Expr) : Expr

/-- A `ΔΙΑΒΑΣΕ` target: a scalar variable or an array element. -/
inductive RTarget where
  | tvar (name : String) : RTarget
  | tarr (name : String) (idxs : List Expr) : RTarget

/-- Statement AST nodes of the source. -/
inductive Stmt where
  | assign (name : String) (idxs : Option (List Expr)) (e : Expr) : Stmt
  | write (es : List Expr) : Stmt
  | readS (targets : List RTarget) : Stmt
  | procCall (name : String) (args : List Expr) : Stmt
  | ret (e : Option Expr) : Stmt
  | ifS (cond : Expr) (thenB : List Stmt) (elseB : Option (List Stmt)) : Stmt
  | whileS (cond : Expr) (body : List Stmt) : Stmt
  | repeatS (body : List Stmt) (cond : Expr) : Stmt
  | selectS (scrut : Expr) (cases : List (List Expr × List Stmt))
      (dflt : Option (List Stmt)) : Stmt
  | forS (v : String) (start : Expr) (stop : Expr) (step : Option Expr)
      (body : List Stmt) : Stmt

end

/-- `ProcedureDef`. -/
structure ProcDef where
  params : List (String × Ty)
  locals : List (String × VarInfo)
  body : List Stmt

/-- `FunctionDef`. -/
structure FuncDef where
  params : List (String × Ty)
  locals : List (String × VarInfo)
  body : List Stmt
  retTy : Ty

/-- A debugger callback event: `before_statement` or `after_statement`
applied to a statement. -/
inductive Ev where
  | before (s : Stmt) : Ev
  | after (s : Stmt) : Ev

/-- The number of `before` callbacks in a trace. -/
def nBefore : List Ev → Nat
  | [] => 0
  | .before _ :: t => nBefore t + 1
  | .after _ :: t => nBefore t

/-- The number of `after` callbacks in a trace. -/
def nAfter : List Ev → Nat
  | [] => 0
  | .after _ :: t => nAfter t + 1
  | .before _ :: t => nAfter t

/-- The debugger hook, passed through the interpreter exactly as the
source threads its `debugger` argument: absent, or an observer whose stop
flag — read when the `k`-th `before` callback (0-based) runs — is the
given predicate.  (The IDE's observer sets the flag once and leaves it
set; a monotone predicate models that run.) -/
def Hook : Type := Option (Nat → Bool)

/-- Interpreter state: the current environment, the scripted input queue
and collected outputs of the `IOHandler`, the debugger-observable callback
trace, and the routine tables shared by every environment of the run. -/
structure St where
  env : EnvT
  inputs : List String
  outputs : List String
  trace : List Ev
  procs : List (String × ProcDef)
  funcs : List (String × FuncDef)

/-- Exceptions propagating through the executor: a Python-level error, the
internal `FunctionReturn` control-flow exception, the IDE hook's
`DebugStop`, and exhaustion of the embedding's fuel (an artifact standing
for a computation still running). -/
inductive Exc where
  | err (e : PyErr) : Exc
  | funcReturn (v : Option Value) : Exc
  | debugStop : Exc
  | fuelOut : Exc

/-- Result of one interpreter step: an exception or a value, plus the
state. -/
def Res (α : Type) : Type := Except Exc α × St

/-- Sequencing with exception propagation (Python's ordinary control flow). -/
def bindR {α β : Type} (x : Res α) (k : α → St → Res β) : Res β :=
  match x with
  | (.ok a, st) => k a st
  | (.error e, st) => (.error e, st)

/-- Lift a pure `Except PyErr` computation into a step (a raised Python
exception propagates). -/
def liftE {α : Type} (x : Except PyErr α) (st : St) : Res α :=
  match x with
  | .ok a => (.ok a, st)
  | .error e => (.error (.err e), st)

/-- `IOHandler.read`: pop the next scripted input line or raise
`RuntimeErrorGlossa`. -/
def ioRead (st : St) : Res String :=
  match st.inputs with
  | [] =>
    (.error (.err (.glossa "Απαιτείται είσοδος (ΔΙΑΒΑΣΕ) αλλά δεν δόθηκε input_queue")),
      st)
  | h :: t => (.ok h, { st with inputs := t })

/-- `IOHandler.write`: append one output line. -/
def ioWrite (text : String) (st : St) : Res Unit :=
  (.ok (), { st with outputs := st.outputs ++ [text] })

/-- The `to_text` rendering of `ΓΡΑΨΕ`: booleans as the Greek words,
otherwise Python `str`.  The rendering of a float is an approximation of
Python's (no claim depends on it). -/
def toText : Value → String
  | .vbool b => if b then "ΑΛΗΘΗΣ" else "ΨΕΥΔΗΣ"
  | .vint i => toString i
  | .vstr s => s
  | .vreal q => if q.den = 1 then toString q.num ++ ".0" else toString q

/-- The `before_statement` callback site in `exec_statements`: when a hook
is attached, the callback runs (recorded in the trace) and raises
`DebugStop` when the observer's stop flag was set in time for it. -/
def dbgBefore (dbg : Hook) (s : Stmt) (st : St) : Res Unit :=
  match dbg with
  | some stopReq =>
    let st' := { st with trace := st.trace ++ [Ev.before s] }
    if stopReq (nBefore st.trace) then (.error .debugStop, st') else (.ok (), st')
  | none => (.ok (), st)

/-- The `after_statement` callback site in `exec_statements`. -/
def dbgAfter (dbg : Hook) (s : Stmt) (st : St) : Res Unit :=
  match dbg with
  | some _ => (.ok (), { st with trace := st.trace ++ [.after s] })
  | none => (.ok (), st)

/-- The `local_types` built by the routine dispatcher: the routine's local
declarations, then one scalar entry per parameter (a parameter overwrites a
same-named local, as the dict assignment does). -/
def buildLocalTypes (locals : List (String × VarInfo)) (params : List (String × Ty)) :
    List (String × VarInfo) :=
  params.foldl (fun acc p => asetOrAppend p.1 ⟨p.2, none⟩ acc) locals

/-- The child environment a call creates: `Env(local_types, parent=env)` —
note the parent is the *caller's* environment. -/
def mkCallEnv (locals : List (String × VarInfo)) (params : List (String × Ty))
    (caller : EnvT) : Except PyErr EnvT :=
  envNew (buildLocalTypes locals params) (some caller)

/-- The argument-binding loop of the routine dispatcher:
`child_env.set(param.name, value)` for each parameter/argument pair, which
coerces each value to the parameter's declared scalar type. -/
def bindParams (params : List (String × Ty)) (vals : List Value) (env : EnvT) :
    Except PyErr EnvT :=
  match params, vals with
  | p :: ps, v :: vs => do
    let env' ← envSet env p.1 v none
    bindParams ps vs env'
  | _, _ => .ok env

/-- Return from a call: the caller resumes with the child's parent chain
(which carries any mutation of caller-visible variables made through the
chain). -/
def popEnv (st : St) : St := { st with env := st.env.parent.getD st.env }

/-- The coercion `call_function` applies to the value carried by
`FunctionReturn` (`child_env._coerce(func.return_type, ret.value)`); a
valueless `ΕΠΙΣΤΡΕΨΕ` carries Python `None`, which fails the coercion of
every base type. -/
def coerceRet (tp : Ty) (v : Option Value) : Except PyErr Value :=
  match v with
  | some val => coerce tp val
  | none =>
    match tp with
    | .int => .error (.glossa "Αναμενόταν ακέραιος")
    | .real => .error (.glossa "Αναμενόταν πραγματικός")
    | .char => .error (.glossa "Αναμενόταν αλφαριθμητικό")
    | .bool => .error (.glossa "Αναμενόταν λογική τιμή")

/-- `env.set` acting on the interpreter state. -/
def stSet (name : String) (v : Value) (idxs : Option (List Int)) (st : St) : Res Unit :=
  match envSet st.env name v idxs with
  | .ok env' => (.ok (), { st with env := env' })
  | .error e => (.error (.err e), st)

/-- `env.get` acting on the interpreter state. -/
def stGet (name : String) (idxs : Option (List Int)) (st : St) : Res Value :=
  liftE (envGet st.env name idxs) st

mutual

/-- `eval_expr`.  The fuel argument is the embedding's recursion budget:
every recursive call of the interpreter consumes one unit, and an
exhausted budget reports `Exc.fuelOut` (the source simply keeps running). -/
def evalE : Nat → Hook → Expr → St → Res Value
  | 0, _, _, st => (.error .fuelOut, st)
  | fuel + 1, dbg, e, st =>
    match e with
    | .num (.i n) => (.ok (.vint n), st)
    | .num (.f q) => (.ok (.vreal q), st)
    | .str s => (.ok (.vstr s), st)
    | .boolLit b => (.ok (.vbool b), st)
    | .var name => stGet name none st
    | .arrayRef name idxs =>
      bindR (evalIdxs fuel dbg idxs st) fun is st => stGet name (some is) st
    | .funcCall name args => callFunc fuel dbg name args st
    | .unOp op e1 =>
      bindR (evalE fuel dbg e1 st) fun v st =>
        match op with
        | .neg => liftE (pyNeg v) st
        | .pos => liftE (pyPos v) st
        | .lnot => (.ok (.vbool (!pyTruthy v)), st)
    | .binOp op l r =>
      bindR (evalE fuel dbg l st) fun lv st =>
      bindR (evalE fuel dbg r st) fun rv st =>
      liftE (evalBinOp op lv rv) st

/-- Left-to-right evaluation of an expression list (arguments, `ΓΡΑΨΕ`
operands). -/
def evalList : Nat → Hook → List Expr → St → Res (List Value)
  | 0, _, _, st => (.error .fuelOut, st)
  | _ + 1, _, [], st => (.ok [], st)
  | fuel + 1, dbg, e :: es, st =>
    bindR (evalE fuel dbg e st) fun v st =>
    bindR (evalList fuel dbg es st) fun vs st =>
    (.ok (v :: vs), st)

/-- Left-to-right evaluation of an index list, coercing each value with
`_coerce_index` as it is produced. -/
def evalIdxs : Nat → Hook → List Expr → St → Res (List Int)
  | 0, _, _, st => (.error .fuelOut, st)
  | _ + 1, _, [], st => (.ok [], st)
  | fuel + 1, dbg, e :: es, st =>
    bindR (evalE fuel dbg e st) fun v st =>
    bindR (liftE (coerceIndex v) st) fun i st =>
    bindR (evalIdxs fuel dbg es st) fun is st =>
    (.ok (i :: is), st)

/-- `exec_statement`. -/
def execStmt : Nat → Hook → Stmt → St → Res Unit
  | 0, _, _, st => (.error .fuelOut, st)
  | fuel + 1, dbg, s, st =>
    match s with
    | .assign name idxsE e =>
      bindR (evalE fuel dbg e st) fun v st =>
        match idxsE with
        | none => stSet name v none st
        | some ies =>
          bindR (evalIdxs fuel dbg ies st) fun is st => stSet name v (some is) st
    | .write es =>
      bindR (evalList fuel dbg es st) fun vs st =>
      ioWrite (String.intercalate " " (vs.map toText)) st
    | .readS targets => readTargets fuel dbg targets st
    | .procCall name args => callProc fuel dbg name args st
    | .ret e? =>
      match e? with
      | some e => bindR (evalE fuel dbg e st) fun v st => (.error (.funcReturn (some v)), st)
      | none => (.error (.funcReturn none), st)
    | .ifS cond tb eb =>
      bindR (evalE fuel dbg cond st) fun c st =>
        if pyTruthy c then execStmts fuel dbg tb st
        else
          match eb with
          | some els => execStmts fuel dbg els st
          | none => (.ok (), st)
    | .whileS cond body => whileLoop fuel dbg cond body st
    | .repeatS body cond => repeatLoop fuel dbg body cond st
    | .selectS scrut cases dflt =>
      bindR (evalE fuel dbg scrut st) fun tv st =>
      bindR (selectCases fuel dbg tv cases st) fun matched st =>
        if matched then (.ok (), st)
        else
          match dflt with
          | some d => execStmts fuel dbg d st
          | none => (.ok (), st)
    | .forS v startE stopE stepE body =>
      bindR (evalE fuel dbg startE st) fun sv st =>
      bindR (evalE fuel dbg stopE st) fun stopV st =>
      bindR (match stepE with
             | some se => evalE fuel dbg se st
             | none => (.ok (.vint 1), st)) fun stepV st =>
      bindR (stSet v sv none st) fun _ st =>
      bindR (liftE (pyLe (.vint 0) stepV) st) fun asc st =>
        if asc then forLoopA fuel dbg v stopV stepV body st
        else forLoopD fuel dbg v stopV stepV body st

/-- `exec_statements`: each statement is bracketed by the debugger hooks
when one is attached. -/
def execStmts : Nat → Hook → List Stmt → St → Res Unit
  | 0, _, _, st => (.error .fuelOut, st)
  | _ + 1, _, [], st => (.ok (), st)
  | fuel + 1, dbg, s :: rest, st =>
    bindR (dbgBefore dbg s st) fun _ st =>
    bindR (execStmt fuel dbg s st) fun _ st =>
    bindR (dbgAfter dbg s st) fun _ st =>
    execStmts fuel dbg rest st

/-- `call_procedure`. -/
def callProc : Nat → Hook → String → List Expr → St → Res Unit
  | 0, _, _, _, st => (.error .fuelOut, st)
  | fuel + 1, dbg, name, args, st =>
    match alookup name st.procs with
    | none => (.error (.err (.glossa ("Άγνωστη διαδικασία " ++ name))), st)
    | some proc =>
      if args.length ≠ proc.params.length then
        (.error (.err (.glossa ("Η διαδικασία " ++ name ++ " αναμένει " ++
          toString proc.params.length ++ " ορίσματα"))), st)
      else
        bindR (evalList fuel dbg args st) fun vals st =>
        bindR (liftE (mkCallEnv proc.locals proc.params st.env) st) fun child st =>
        bindR (liftE (bindParams proc.params vals child) st) fun child' st =>
        match execStmts fuel dbg proc.body { st with env := child' } with
        | (.ok _, st') => (.ok (), popEnv st')
        | (.error (.funcReturn _), st') =>
          (.error (.err (.glossa ("Η διαδικασία " ++ name ++
            " δεν μπορεί να επιστρέψει τιμή"))), popEnv st')
        | (.error exc, st') => (.error exc, popEnv st')

/-- `call_function`. -/
def callFunc : Nat → Hook → String → List Expr → St → Res Value
  | 0, _, _, _, st => (.error .fuelOut, st)
  | fuel + 1, dbg, name, args, st =>
    match alookup name st.funcs with
    | none => (.error (.err (.glossa ("Άγνωστη συνάρτηση " ++ name))), st)
    | some func =>
      if args.length ≠ func.params.length then
        (.error (.err (.glossa ("Η συνάρτηση " ++ name ++ " αναμένει " ++
          toString func.params.length ++ " ορίσματα"))), st)
      else
        bindR (evalList fuel dbg args st) fun vals st =>
        bindR (liftE (mkCallEnv func.locals func.params st.env) st) fun child st =>
        bindR (liftE (bindParams func.params vals child) st) fun child' st =>
        match execStmts fuel dbg func.body { st with env := child' } with
        | (.ok _, st') =>
          (.error (.err (.glossa ("Η συνάρτηση " ++ name ++ " δεν επέστρεψε τιμή"))),
            popEnv st')
        | (.error (.funcReturn v), st') => liftE (coerceRet func.retTy v) (popEnv st')
        | (.error exc, st') => (.error exc, popEnv st')

/-- The `ΟΣΟ` loop of `exec_statement`. -/
def whileLoop : Nat → Hook → Expr → List Stmt → St → Res Unit
  | 0, _, _, _, st => (.error .fuelOut, st)
  | fuel + 1, dbg, cond, body, st =>
    bindR (evalE fuel dbg cond st) fun c st =>
      if pyTruthy c then
        bindR (execStmts fuel dbg body st) fun _ st => whileLoop fuel dbg cond body st
      else (.ok (), st)

/-- The `ΑΡΧΗ_ΕΠΑΝΑΛΗΨΗΣ … ΜΕΧΡΙΣ_ΟΤΟΥ` loop of `exec_statement`. -/
def repeatLoop : Nat → Hook → List Stmt → Expr → St → Res Unit
  | 0, _, _, _, st => (.error .fuelOut, st)
  | fuel + 1, dbg, body, cond, st =>
    bindR (execStmts fuel dbg body st) fun _ st =>
    bindR (evalE fuel dbg cond st) fun c st =>
      if pyTruthy c then (.ok (), st) else repeatLoop fuel dbg body cond st

/-- The ascending `ΓΙΑ` loop (`step >= 0`): iterate while the induction
variable is `<=` the end value, re-reading the variable and incrementing
it by the step through a normal assignment after each iteration. -/
def forLoopA : Nat → Hook → String → Value → Value → List Stmt → St → Res Unit
  | 0, _, _, _, _, _, st => (.error .fuelOut, st)
  | fuel + 1, dbg, v, stopV, stepV, body, st =>
    bindR (stGet v none st) fun cur st =>
    bindR (liftE (pyLe cur stopV) st) fun cont st =>
      if cont then
        bindR (execStmts fuel dbg body st) fun _ st =>
        bindR (stGet v none st) fun cur2 st =>
        bindR (liftE (pyAdd cur2 stepV) st) fun nxt st =>
        bindR (stSet v nxt none st) fun _ st =>
        forLoopA fuel dbg v stopV stepV body st
      else (.ok (), st)

/-- The descending `ΓΙΑ` loop (`step < 0`): iterate while the induction
variable is `>=` the end value. -/
def forLoopD : Nat → Hook → String → Value → Value → List Stmt → St → Res Unit
  | 0, _, _, _, _, _, st => (.error .fuelOut, st)
  | fuel + 1, dbg, v, stopV, stepV, body, st =>
    bindR (stGet v none st) fun cur st =>
    bindR (liftE (pyLe stopV cur) st) fun cont st =>
      if cont then
        bindR (execStmts fuel dbg body st) fun _ st =>
        bindR (stGet v none st) fun cur2 st =>
        bindR (liftE (pyAdd cur2 stepV) st) fun nxt st =>
        bindR (stSet v nxt none st) fun _ st =>
        forLoopD fuel dbg v stopV stepV body st
      else (.ok (), st)

/-- The case iteration of `ΕΠΙΛΕΞΕ`: the first arm one of whose values
equals the scrutinee runs its body and stops the search. -/
def selectCases : Nat → Hook → Value → List (List Expr × List Stmt) → St → Res Bool
  | 0, _, _, _, st => (.error .fuelOut, st)
  | _ + 1, _, _, [], st => (.ok false, st)
  | fuel + 1, dbg, tv, c :: rest, st =>
    bindR (selectVals fuel dbg tv c.1 st) fun hit st =>
      if hit then bindR (execStmts fuel dbg c.2 st) fun _ st => (.ok true, st)
      else selectCases fuel dbg tv rest st

/-- The value iteration within one `ΠΕΡΙΠΤΩΣΗ` arm. -/
def selectVals : Nat → Hook → Value → List Expr → St → Res Bool
  | 0, _, _, _, st => (.error .fuelOut, st)
  | _ + 1, _, _, [], st => (.ok false, st)
  | fuel + 1, dbg, tv, e :: rest, st =>
    bindR (evalE fuel dbg e st) fun v st =>
      if pyEq v tv then (.ok true, st) else selectVals fuel dbg tv rest st

/-- The `ΔΙΑΒΑΣΕ` target loop: read one line per target, convert it to the
target's declared base type, and store it (evaluating the index
expressions of an array target after the conversion, as the source does). -/
def readTargets : Nat → Hook → List RTarget → St → Res Unit
  | 0, _, _, st => (.error .fuelOut, st)
  | _ + 1, _, [], st => (.ok (), st)
  | fuel + 1, dbg, t :: ts, st =>
    bindR (ioRead st) fun raw st =>
    bindR (match t with
      | .tvar name =>
        bindR (liftE (envGetType st.env name) st) fun info st =>
        bindR (liftE (convertInput raw info.ty) st) fun v st =>
        stSet name v none st
      | .tarr name idxsE =>
        bindR (liftE (envGetType st.env name) st) fun info st =>
        bindR (liftE (convertInput raw info.ty) st) fun v st =>
        bindR (evalIdxs fuel dbg idxsE st) fun is st =>
        stSet name v (some is) st) fun _ st =>
    readTargets fuel dbg ts st

end

/-- The payload of a token (`value` in the source's `(type, value, line)`
triples): a number, a string literal, an identifier, a boolean for the
reserved true/false words, or nothing. -/
inductive TVal where
  | n (v : NumV) : TVal
  | s (lit : String) : TVal
  | id (name : String) : TVal
  | b (bv : Bool) : TVal
  | nul : TVal

/-- A token: the kind tag exactly as the source spells it (`"RETURN"`,
`"NUMBER"`, …) plus the payload.  Line numbers are not tracked. -/
structure Tok where
  kind : String
  val : TVal

/-- The terminating token; `Parser.current` beyond the end is modelled as
`EOF`, which the source guarantees by always appending one. -/
def eofTok : Tok := ⟨"EOF", .nul⟩

/-- `Parser.current`. -/
def curTok (toks : List Tok) (pos : Nat) : Tok := toks.getD pos eofTok

/-- `Parser.accept`: consume the current token when its kind is listed. -/
def acceptTok (toks : List Tok) (pos : Nat) (kinds : List String) :
    Option (Tok × Nat) :=
  let t := curTok toks pos
  if kinds.contains t.kind then some (t, pos + 1) else none

/-- `Parser.expect`: like `accept` but a mismatch is a `ParseError`. -/
def expectTok (toks : List Tok) (pos : Nat) (kinds : List String) : Except String (Tok × Nat) :=
  match acceptTok toks pos kinds with
  | some (t, p) => .ok (t, p)
  | none =>
    .error ("Συντακτικό λάθος: αναμενόταν " ++ String.intercalate " ή " kinds ++
      ", βρέθηκε " ++ (curTok toks pos).kind)

/-- The identifier text carried by an `ID` token. -/
def tokName (t : Tok) : String :=
  match t.val with
  | .id s => s
  | _ => ""

/-- Map a multiplicative-level token kind to its operator. -/
def mulOpOf (kind : String) : BOp :=
  if kind = "MUL" then .mul
  else if kind = "DIVIDE" then .divide
  else if kind = "DIV" then .div
  else if kind = "MOD" then .mod
  else .modSym

/-- Map a comparison token kind to its operator. -/
def cmpOpOf (kind : String) : BOp :=
  if kind = "EQ" then .eq
  else if kind = "NE" then .ne
  else if kind = "LT" then .lt
  else if kind = "LE" then .le
  else if kind = "GT" then .gt
  else .ge

mutual

/-- `Parser.parse_expr`. -/
def parseExpr : Nat → List Tok → Nat → Except String (Expr × Nat)
  | 0, _, _ => .error "fuel"
  | fuel + 1, toks, pos => parseOr fuel toks pos
termination_by structural fuel => fuel

/-- `Parser.parse_or`. -/
def parseOr : Nat → List Tok → Nat → Except String (Expr × Nat)
  | 0, _, _ => .error "fuel"
  | fuel + 1, toks, pos => do
    let (node, pos) ← parseAnd fuel toks pos
    parseOrRest fuel toks node pos
termination_by structural fuel => fuel

/-- The `while accept OR` loop of `parse_or`. -/
def parseOrRest : Nat → List Tok → Expr → Nat → Except String (Expr × Nat)
  | 0, _, _, _ => .error "fuel"
  | fuel + 1, toks, node, pos =>
    match acceptTok toks pos ["OR"] with
    | some (_, pos) => do
      let (rhs, pos) ← parseAnd fuel toks pos
      parseOrRest fuel toks (.binOp .lor node rhs) pos
    | none => .ok (node, pos)
termination_by structural fuel => fuel

/-- `Parser.parse_and`. -/
def parseAnd : Nat → List Tok → Nat → Except String (Expr × Nat)
  | 0, _, _ => .error "fuel"
  | fuel + 1, toks, pos => do
    let (node, pos) ← parseNot fuel toks pos
    parseAndRest fuel toks node pos
termination_by structural fuel => fuel

/-- The `while accept AND` loop of `parse_and`. -/
def parseAndRest : Nat → List Tok → Expr → Nat → Except String (Expr × Nat)
  | 0, _, _, _ => .error "fuel"
  | fuel + 1, toks, node, pos =>
    match acceptTok toks pos ["AND"] with
    | some (_, pos) => do
      let (rhs, pos) ← parseNot fuel toks pos
      parseAndRest fuel toks (.binOp .land node rhs) pos
    | none => .ok (node, pos)
termination_by structural fuel => fuel

/-- `Parser.parse_not`. -/
def parseNot : Nat → List Tok → Nat → Except String (Expr × Nat)
  | 0, _, _ => .error "fuel"
  | fuel + 1, toks, pos =>
    match acceptTok toks pos ["NOT"] with
    | some (_, pos) => do
      let (e, pos) ← parseNot fuel toks pos
      .ok (.unOp .lnot e, pos)
    | none => parseCmp fuel toks pos
termination_by structural fuel => fuel

/-- `Parser.parse_cmp`: at most one comparison. -/
def parseCmp : Nat → List Tok → Nat → Except String (Expr × Nat)
  | 0, _, _ => .error "fuel"
  | fuel + 1, toks, pos => do
    let (node, pos) ← parseAdd fuel toks pos
    match acceptTok toks pos ["EQ", "NE", "LT", "LE", "GT", "GE"] with
    | some (t, pos) => do
      let (rhs, pos) ← parseAdd fuel toks pos
      .ok (.binOp (cmpOpOf t.kind) node rhs, pos)
    | none => .ok (node, pos)
termination_by structural fuel => fuel

/-- `Parser.parse_add`. -/
def parseAdd : Nat → List Tok → Nat → Except String (Expr × Nat)
  | 0, _, _ => .error "fuel"
  | fuel + 1, toks, pos => do
    let (node, pos) ← parseMul fuel toks pos
    parseAddRest fuel toks node pos
termination_by structural fuel => fuel

/-- The `PLUS`/`MINUS` loop of `parse_add`. -/
def parseAddRest : Nat → List Tok → Expr → Nat → Except String (Expr × Nat)
  | 0, _, _, _ => .error "fuel"
  | fuel + 1, toks, node, pos =>
    match acceptTok toks pos ["PLUS", "MINUS"] with
    | some (t, pos) => do
      let (rhs, pos) ← parseMul fuel toks pos
      parseAddRest fuel toks
        (.binOp (if t.kind = "PLUS" then .plus else .minus) node rhs) pos
    | none => .ok (node, pos)
termination_by structural fuel => fuel

/-- `Parser.parse_mul`. -/
def parseMul : Nat → List Tok → Nat → Except String (Expr × Nat)
  | 0, _, _ => .error "fuel"
  | fuel + 1, toks, pos => do
    let (node, pos) ← parseUnary fuel toks pos
    parseMulRest fuel toks node pos
termination_by structural fuel => fuel

/-- The multiplicative-operator loop of `parse_mul`. -/
def parseMulRest : Nat → List Tok → Expr → Nat → Except String (Expr × Nat)
  | 0, _, _, _ => .error "fuel"
  | fuel + 1, toks, node, pos =>
    match acceptTok toks pos ["MUL", "DIVIDE", "DIV", "MOD", "MOD_SYM"] with
    | some (t, pos) => do
      let (rhs, pos) ← parseUnary fuel toks pos
      parseMulRest fuel toks (.binOp (mulOpOf t.kind) node rhs) pos
    | none => .ok (node, pos)
termination_by structural fuel => fuel

/-- `Parser.parse_unary`. -/
def parseUnary : Nat → List Tok → Nat → Except String (Expr × Nat)
  | 0, _, _ => .error "fuel"
  | fuel + 1, toks, pos =>
    match acceptTok toks pos ["MINUS", "PLUS"] with
    | some (t, pos) => do
      let (e, pos) ← parseUnary fuel toks pos
      .ok (.unOp (if t.kind = "MINUS" then .neg else .pos) e, pos)
    | none => parsePrimary fuel toks pos
termination_by structural fuel => fuel

/-- `Parser.parse_primary`. -/
def parsePrimary : Nat → List Tok → Nat → Except String (Expr × Nat)
  | 0, _, _ => .error "fuel"
  | fuel + 1, toks, pos =>
    let t := curTok toks pos
    if t.kind = "NUMBER" then
      match t.val with
      | .n v => .ok (.num v, pos + 1)
      | _ => .error "Συντακτικό λάθος: κατεστραμμένο NUMBER"
    else if t.kind = "STRING" then
      match t.val with
      | .s lit => .ok (.str lit, pos + 1)
      | _ => .error "Συντακτικό λάθος: κατεστραμμένο STRING"
    else if t.kind = "TRUE" then .ok (.boolLit true, pos + 1)
    else if t.kind = "FALSE" then .ok (.boolLit false, pos + 1)
    else if t.kind = "ID" then
      let name := tokName t
      let pos := pos + 1
      match acceptTok toks pos ["LPAREN"] with
      | some (_, pos) => do
        let (args, pos) ← parseArgList fuel toks pos
        .ok (.funcCall name args, pos)
      | none =>
        match acceptTok toks pos ["LBRACKET"] with
        | some (_, pos) => do
          let (idxs, pos) ← parseIndexList fuel toks pos
          let (_, pos) ← expectTok toks pos ["RBRACKET"]
          .ok (.arrayRef name idxs, pos)
        | none => .ok (.var name, pos)
    else if t.kind = "LPAREN" then do
      let (node, pos) ← parseExpr fuel toks (pos + 1)
      let (_, pos) ← expectTok toks pos ["RPAREN"]
      .ok (node, pos)
    else
      .error ("Συντακτικό λάθος: αναμενόταν έκφραση, βρέθηκε " ++ t.kind)
termination_by structural fuel => fuel

/-- `Parser.parse_argument_list` (the opening parenthesis is already
consumed). -/
def parseArgList : Nat → List Tok → Nat → Except String (List Expr × Nat)
  | 0, _, _ => .error "fuel"
  | fuel + 1, toks, pos =>
    match acceptTok toks pos ["RPAREN"] with
    | some (_, pos) => .ok ([], pos)
    | none => do
      let (e, pos) ← parseExpr fuel toks pos
      let (rest, pos) ← parseExprCommaRest fuel toks pos
      let (_, pos) ← expectTok toks pos ["RPAREN"]
      .ok (e :: rest, pos)
termination_by structural fuel => fuel

/-- `Parser.parse_index_list`. -/
def parseIndexList : Nat → List Tok → Nat → Except String (List Expr × Nat)
  | 0, _, _ => .error "fuel"
  | fuel + 1, toks, pos => do
    let (e, pos) ← parseExpr fuel toks pos
    let (rest, pos) ← parseExprCommaRest fuel toks pos
    .ok (e :: rest, pos)
termination_by structural fuel => fuel

/-- The shared `while accept COMMA: parse_expr` loop of the expression-list
rules. -/
def parseExprCommaRest : Nat → List Tok → Nat → Except String (List Expr × Nat)
  | 0, _, _ => .error "fuel"
  | fuel + 1, toks, pos =>
    match acceptTok toks pos ["COMMA"] with
    | some (_, pos) => do
      let (e, pos) ← parseExpr fuel toks pos
      let (rest, pos) ← parseExprCommaRest fuel toks pos
      .ok (e :: rest, pos)
    | none => .ok ([], pos)
termination_by structural fuel => fuel

/-- `Parser.parse_read_target`. -/
def parseReadTarget : Nat → List Tok → Nat → Except String (RTarget × Nat)
  | 0, _, _ => .error "fuel"
  | fuel + 1, toks, pos => do
    let (t, pos) ← expectTok toks pos ["ID"]
    let name := tokName t
    match acceptTok toks pos ["LBRACKET"] with
    | some (_, pos) => do
      let (idxs, pos) ← parseIndexList fuel toks pos
      let (_, pos) ← expectTok toks pos ["RBRACKET"]
      .ok (.tarr name idxs, pos)
    | none => .ok (.tvar name, pos)

/-- The `while accept COMMA: parse_read_target` loop of `ΔΙΑΒΑΣΕ`. -/
def parseReadRest : Nat → List Tok → Nat → Except String (List RTarget × Nat)
  | 0, _, _ => .error "fuel"
  | fuel + 1, toks, pos =>
    match acceptTok toks pos ["COMMA"] with
    | some (_, pos) => do
      let (t, pos) ← parseReadTarget fuel toks pos
      let (rest, pos) ← parseReadRest fuel toks pos
      .ok (t :: rest, pos)
    | none => .ok ([], pos)
termination_by structural fuel => fuel

/-- `Parser.parse_statement`. -/
def parseStatement : Nat → List Tok → Nat → Except String (Stmt × Nat)
  | 0, _, _ => .error "fuel"
  | fuel + 1, toks, pos =>
    let t := curTok toks pos
    if t.kind = "WRITE" then do
      let (e, pos) ← parseExpr fuel toks (pos + 1)
      let (rest, pos) ← parseExprCommaRest fuel toks pos
      .ok (.write (e :: rest), pos)
    else if t.kind = "READ" then do
      let (tgt, pos) ← parseReadTarget fuel toks (pos + 1)
      let (rest, pos) ← parseReadRest fuel toks pos
      .ok (.readS (tgt :: rest), pos)
    else if t.kind = "CALL" then do
      let (nameT, pos) ← expectTok toks (pos + 1) ["ID"]
      let (_, pos) ← expectTok toks pos ["LPAREN"]
      let (args, pos) ← parseArgList fuel toks pos
      .ok (.procCall (tokName nameT) args, pos)
    else if t.kind = "RETURN" then do
      let (e, pos) ← parseExpr fuel toks (pos + 1)
      .ok (.ret (some e), pos)
    else if t.kind = "IF" then do
      let (cond, pos) ← parseExpr fuel toks (pos + 1)
      let (_, pos) ← expectTok toks pos ["THEN"]
      let (thenB, pos) ← parseStatements fuel toks ["ELSE", "END_IF"] pos
      match acceptTok toks pos ["ELSE"] with
      | some (_, pos) => do
        let (elseB, pos) ← parseStatements fuel toks ["END_IF"] pos
        let (_, pos) ← expectTok toks pos ["END_IF"]
        .ok (.ifS cond thenB (some elseB), pos)
      | none => do
        let (_, pos) ← expectTok toks pos ["END_IF"]
        .ok (.ifS cond thenB none, pos)
    else if t.kind = "WHILE" then do
      let (cond, pos) ← parseExpr fuel toks (pos + 1)
      let (_, pos) ← expectTok toks pos ["DO"]
      let (body, pos) ← parseStatements fuel toks ["END_LOOP"] pos
      let (_, pos) ← expectTok toks pos ["END_LOOP"]
      .ok (.whileS cond body, pos)
    else if t.kind = "REPEAT" then do
      let (body, pos) ← parseStatements fuel toks ["UNTIL"] (pos + 1)
      let (_, pos) ← expectTok toks pos ["UNTIL"]
      let (cond, pos) ← parseExpr fuel toks pos
      .ok (.repeatS body cond, pos)
    else if t.kind = "SELECT" then do
      let (scrut, pos) ← parseExpr fuel toks (pos + 1)
      let ((cases, dflt), pos) ← parseSelectArms fuel toks [] none pos
      let (_, pos) ← expectTok toks pos ["END_SELECT"]
      .ok (.selectS scrut cases dflt, pos)
    else if t.kind = "FOR" then do
      let (varT, pos) ← expectTok toks (pos + 1) ["ID"]
      let (_, pos) ← expectTok toks pos ["FROM"]
      let (startE, pos) ← parseExpr fuel toks pos
      let (_, pos) ← expectTok toks pos ["TO"]
      let (stopE, pos) ← parseExpr fuel toks pos
      match acceptTok toks pos ["STEP"] with
      | some (_, pos) => do
        let (stepE, pos) ← parseExpr fuel toks pos
        let (body, pos) ← parseStatements fuel toks ["END_LOOP"] pos
        let (_, pos) ← expectTok toks pos ["END_LOOP"]
        .ok (.forS (tokName varT) startE stopE (some stepE) body, pos)
      | none => do
        let (body, pos) ← parseStatements fuel toks ["END_LOOP"] pos
        let (_, pos) ← expectTok toks pos ["END_LOOP"]
        .ok (.forS (tokName varT) startE stopE none body, pos)
    else if t.kind = "ID" then do
      let name := tokName t
      let pos := pos + 1
      match acceptTok toks pos ["LBRACKET"] with
      | some (_, pos) => do
        let (idxs, pos) ← parseIndexList fuel toks pos
        let (_, pos) ← expectTok toks pos ["RBRACKET"]
        let (_, pos) ← expectTok toks pos ["ASSIGN"]
        let (e, pos) ← parseExpr fuel toks pos
        .ok (.assign name (some idxs) e, pos)
      | none => do
        let (_, pos) ← expectTok toks pos ["ASSIGN"]
        let (e, pos) ← parseExpr fuel toks pos
        .ok (.assign name none e, pos)
    else .error ("Άγνωστη εντολή: " ++ t.kind)
termination_by structural fuel => fuel

/-- `Parser.parse_statements`: collect statements until one of the `until`
kinds is the current token. -/
def parseStatements : Nat → List Tok → List String → Nat → Except String (List Stmt × Nat)
  | 0, _, _, _ => .error "fuel"
  | fuel + 1, toks, untils, pos =>
    if untils.contains (curTok toks pos).kind then .ok ([], pos)
    else do
      let (s, pos) ← parseStatement fuel toks pos
      let (rest, pos) ← parseStatements fuel toks untils pos
      .ok (s :: rest, pos)
termination_by structural fuel => fuel

/-- The arm loop of `ΕΠΙΛΕΞΕ`: value arms accumulate in order; a
`ΠΕΡΙΠΤΩΣΗ ΑΛΛΙΩΣ` arm (re)binds the default body, and the loop then
continues, so further arms after a default are accepted. -/
def parseSelectArms : Nat → List Tok → List (List Expr × List Stmt) →
    Option (List Stmt) → Nat → Except String ((List (List Expr × List Stmt) × Option (List Stmt)) × Nat)
  | 0, _, _, _, _ => .error "fuel"
  | fuel + 1, toks, cases, dflt, pos =>
    if (curTok toks pos).kind = "END_SELECT" then .ok ((cases, dflt), pos)
    else do
      let (_, pos) ← expectTok toks pos ["CASE"]
      match acceptTok toks pos ["ELSE"] with
      | some (_, pos) =>
        let pos := match acceptTok toks pos ["COLON"] with
          | some (_, p) => p
          | none => pos
        do
          let (body, pos) ← parseStatements fuel toks ["CASE", "END_SELECT"] pos
          parseSelectArms fuel toks cases (some body) pos
      | none => do
        let (v, pos) ← parseExpr fuel toks pos
        let (vrest, pos) ← parseExprCommaRest fuel toks pos
        let (_, pos) ← expectTok toks pos ["COLON"]
        let (body, pos) ← parseStatements fuel toks ["CASE", "END_SELECT"] pos
        parseSelectArms fuel toks (cases ++ [(v :: vrest, body)]) dflt pos
termination_by structural fuel => fuel

end

/-! ### Facts about the numeric model -/

/-- On a nonnegative rational, Python's `int(float)` is the floor. -/
lemma pyTruncRat_eq_floor (q : ℚ) (h : 0 ≤ q) : pyTruncRat q = ⌊q⌋ := by
  have hnum : 0 ≤ q.num := Rat.num_nonneg.mpr h
  have hden : (0 : Int) ≤ (q.den : Int) := Int.natCast_nonneg _
  have h1 : pyTruncRat q = q.num / (q.den : Int) := Int.tdiv_eq_ediv hnum hden
  have h2 : ⌊q⌋ = q.num / (q.den : Int) := by
    conv_lhs => rw [← Rat.num_div_den q]
    exact_mod_cast Rat.floor_intCast_div_natCast q.num q.den
  rw [h1, h2]

/-- On a negative rational, Python's `int(float)` is the ceiling; together
with `pyTruncRat_eq_floor` this says `int` truncates toward zero. -/
lemma pyTruncRat_eq_ceil (q : ℚ) (h : q < 0) : pyTruncRat q = ⌈q⌉ := by
  have hneg : 0 ≤ -q := by linarith
  have h1 : pyTruncRat q = -pyTruncRat (-q) := by
    unfold pyTruncRat
    have hn : (-q).num = -q.num := by simp
    have hd : (-q).den = q.den := by simp
    rw [hn, hd, Int.neg_tdiv, neg_neg]
  rw [h1, pyTruncRat_eq_floor (-q) hneg, Int.floor_neg, neg_neg]

/-- The floored remainder by a negative divisor is nonpositive (the sign
of the divisor), by cases on the constructors of `Int.fmod`. -/
lemma fmod_nonpos_of_neg (a b : Int) (hb : b < 0) : a.fmod b ≤ 0 := by
  cases b with
  | ofNat n => exact absurd hb (by simp)
  | negSucc n =>
    cases a with
    | ofNat m =>
      cases m with
      | zero => simp [Int.fmod]
      | succ m =>
        show Int.subNatNat (m % (n + 1)) n ≤ 0
        rw [Int.subNatNat_eq_coe]
        have : m % (n + 1) < n + 1 := Nat.mod_lt _ (by omega)
        omega
    | negSucc m =>
      show -(Int.ofNat ((m + 1) % (n + 1))) ≤ 0
      simp
      exact Int.emod_nonneg _ (by omega)

/-- An integer is nonzero exactly when its rational image is. -/
lemma intCast_ne_zero_q {r : Int} (hr : r ≠ 0) : ¬((r : ℚ) = 0) := by
  exact_mod_cast hr

/-! ### Claim C2 (MOD) -/

/-- Claim C2 counterexample: the claim says `l MOD r` is the truncated
remainder carrying the sign of the left operand, so `(-7) MOD 3` should be
`-1`; the code computes Python's floored remainder `2`. -/
theorem c2_counterexample :
    evalBinOp .mod (.vint (-7)) (.vint 3) = .ok (.vint 2) ∧
    evalBinOp .modSym (.vint (-7)) (.vint 3) = .ok (.vint 2) ∧
    Value.vint 2 ≠ Value.vint (-1) :=
  ⟨rfl, rfl, by decide⟩

/-- Claim C2 as amended: for integer operands with `r ≠ 0`, `MOD` (word
form or `%`) yields the floored remainder `Int.fmod`, whose sign follows
the RIGHT operand (nonnegative for positive `r`, nonpositive for negative
`r`); it is related to `DIV` by the floored identity, and a zero right
operand raises the runtime error `Υπόλοιπο με το μηδέν`. -/
theorem c2_amended_theorem :
    ∀ (l r : Int), r ≠ 0 →
      (evalBinOp .mod (.vint l) (.vint r) = .ok (.vint (l.fmod r)) ∧
        evalBinOp .modSym (.vint l) (.vint r) = .ok (.vint (l.fmod r))) ∧
      (0 < r → 0 ≤ l.fmod r) ∧
      (r < 0 → l.fmod r ≤ 0) ∧
      l.fmod r + r * l.fdiv r = l ∧
      evalBinOp .mod (.vint l) (.vint 0) = .error (.glossa "Υπόλοιπο με το μηδέν") ∧
      evalBinOp .modSym (.vint l) (.vint 0) = .error (.glossa "Υπόλοιπο με το μηδέν") := by
  intro l r hr
  have hq := intCast_ne_zero_q hr
  refine ⟨⟨?_, ?_⟩, ?_, ?_, Int.fmod_add_fdiv l r, ?_, ?_⟩
  · simp [evalBinOp, pyEq, numQ, hq, pyToInt, hr, Bind.bind, Except.bind]
  · simp [evalBinOp, pyEq, numQ, hq, pyToInt, hr, Bind.bind, Except.bind]
  · intro hpos
    exact Int.fmod_nonneg' l hpos
  · intro hneg
    exact fmod_nonpos_of_neg l r hneg
  · simp [evalBinOp, pyEq, numQ]
  · simp [evalBinOp, pyEq, numQ]

/-- Witness for C2's amended theorem at `l = -7`, `r = 3`. -/
theorem c2_witness :
    evalBinOp .mod (.vint (-7)) (.vint 3) = .ok (.vint ((-7 : Int).fmod 3)) ∧
    evalBinOp .modSym (.vint (-7)) (.vint 3) = .ok (.vint ((-7 : Int).fmod 3)) :=
  (c2_amended_theorem (-7) 3 (by decide)).1

/-! ### Claim C3 (DIV) -/

/-- Claim C3 counterexample: the claim says `l DIV r` truncates toward
zero, so `(-7) DIV 2` should be `-3`; the code computes Python's floor
division `-4`. -/
theorem c3_counterexample :
    evalBinOp .div (.vint (-7)) (.vint 2) = .ok (.vint (-4)) ∧
    Value.vint (-4) ≠ Value.vint (-3) :=
  ⟨rfl, by decide⟩

/-- Claim C3 as amended: for integer operands with `r ≠ 0`, `DIV` yields
the floored quotient `Int.fdiv` (rounding toward negative infinity, which
agrees with truncation only when the signs allow); real and boolean
operands are first coerced with Python's `int(...)` (truncation toward
zero for reals, 0/1 for booleans); a zero right operand raises the runtime
error `Διαίρεση με το μηδέν`. -/
theorem c3_amended_theorem :
    ∀ (l r : Int), r ≠ 0 →
      evalBinOp .div (.vint l) (.vint r) = .ok (.vint (l.fdiv r)) ∧
      (∀ q : ℚ, evalBinOp .div (.vreal q) (.vint r) =
        .ok (.vint ((pyTruncRat q).fdiv r))) ∧
      (∀ bv : Bool, evalBinOp .div (.vbool bv) (.vint r) =
        .ok (.vint ((if bv then (1 : Int) else 0).fdiv r))) ∧
      (∀ q : ℚ, 0 ≤ q → pyTruncRat q = ⌊q⌋) ∧
      (∀ q : ℚ, q < 0 → pyTruncRat q = ⌈q⌉) ∧
      evalBinOp .div (.vint l) (.vint 0) = .error (.glossa "Διαίρεση με το μηδέν") := by
  intro l r hr
  have hq := intCast_ne_zero_q hr
  refine ⟨?_, ?_, ?_, fun q h => pyTruncRat_eq_floor q h,
    fun q h => pyTruncRat_eq_ceil q h, ?_⟩
  · simp [evalBinOp, pyEq, numQ, hq, pyToInt, hr, Bind.bind, Except.bind]
  · intro q
    simp [evalBinOp, pyEq, numQ, hq, pyToInt, hr, Bind.bind, Except.bind]
  · intro bv
    cases bv <;> simp [evalBinOp, pyEq, numQ, hq, pyToInt, hr, Bind.bind, Except.bind]
  · simp [evalBinOp, pyEq, numQ]

/-- Witness for C3's amended theorem at `l = -7`, `r = 2`. -/
theorem c3_witness :
    evalBinOp .div (.vint (-7)) (.vint 2) = .ok (.vint ((-7 : Int).fdiv 2)) :=
  (c3_amended_theorem (-7) 2 (by decide)).1

/-! ### Claim C6 (array index coercion and bounds) -/

/-- A root environment declaring a single 1-D integer array `Α` whose
declared size is the length of its contents. -/
def arrEnv (xs : List Value) : EnvT :=
  .mk [("Α", ⟨.int, some [xs.length]⟩)] [("Α", .arr1 xs)] none

/-- Claim C6: for every array element access, each index is coerced (an
integer passes, a real with integral value passes, a boolean becomes 0/1,
anything else is a runtime error), the coerced index must satisfy
`1 ≤ i ≤ size` in every dimension or the out-of-bounds runtime error is
raised, and an in-range 1-based index `i` reads internal position `i-1`. -/
theorem c6_theorem :
    (∀ bv : Bool, coerceIndex (.vbool bv) = .ok (if bv then 1 else 0)) ∧
    (∀ n : Int, coerceIndex (.vreal (n : ℚ)) = .ok n) ∧
    (∀ q : ℚ, q.den ≠ 1 →
      coerceIndex (.vreal q) =
        .error (.glossa "Ο δείκτης πίνακα πρέπει να είναι ακέραιος")) ∧
    (∀ s : String, coerceIndex (.vstr s) =
      .error (.glossa "Ο δείκτης πίνακα πρέπει να είναι ακέραιος")) ∧
    (∀ (xs : List Value) (i : Int), 1 ≤ i → i ≤ (xs.length : Int) →
      envGet (arrEnv xs) "Α" (some [i]) = .ok (xs.getD (i - 1).toNat (.vint 0))) ∧
    (∀ (xs : List Value) (i : Int), i < 1 ∨ (xs.length : Int) < i →
      envGet (arrEnv xs) "Α" (some [i]) =
        .error (.glossa "Η πρόσβαση στον πίνακα Α είναι εκτός ορίων")) ∧
    (∀ (s1 s2 : Nat) (i j : Int), 1 ≤ i → i ≤ (s1 : Int) → 1 ≤ j → j ≤ (s2 : Int) →
      resolveIndices "Α" ⟨.int, some [s1, s2]⟩ [i, j] =
        .ok [(i - 1).toNat, (j - 1).toNat]) := by
  refine ⟨?_, ?_, ?_, ?_, ?_, ?_, ?_⟩
  · intro bv
    cases bv <;> rfl
  · intro n
    simp [coerceIndex, Rat.den_intCast, Rat.num_intCast]
  · intro q h
    simp [coerceIndex, h]
  · intro s
    rfl
  · intro xs i h1 h2
    have hb : ¬(i < 1 ∨ (xs.length : Int) < i) := by omega
    simp [envGet, arrEnv, alookup, resolveIndices, checkBounds, hb,
      cellGet, Bind.bind, Except.bind]
  · intro xs i hb
    have hb' : i < 1 ∨ (xs.length : Int) < i := hb
    simp [envGet, arrEnv, alookup, resolveIndices, checkBounds, hb',
      Bind.bind, Except.bind]
  · intro s1 s2 i j h1 h2 h3 h4
    have hbi : ¬(i < 1 ∨ (s1 : Int) < i) := by omega
    have hbj : ¬(j < 1 ∨ (s2 : Int) < j) := by omega
    simp [resolveIndices, checkBounds, hbi, hbj, Bind.bind, Except.bind]

/-- Witness for C6 at a concrete two-element array, the in-range index 2,
the out-of-range index 3, and a non-integral real index. -/
theorem c6_witness :
    envGet (arrEnv [.vint 10, .vint 20]) "Α" (some [2]) =
      .ok ([Value.vint 10, Value.vint 20].getD ((2 : Int) - 1).toNat (.vint 0)) ∧
    envGet (arrEnv [.vint 10, .vint 20]) "Α" (some [3]) =
      .error (.glossa "Η πρόσβαση στον πίνακα Α είναι εκτός ορίων") ∧
    coerceIndex (.vreal (3 / 2 : ℚ)) =
      .error (.glossa "Ο δείκτης πίνακα πρέπει να είναι ακέραιος") :=
  ⟨c6_theorem.2.2.2.2.1 [.vint 10, .vint 20] 2 (by decide) (by decide),
   c6_theorem.2.2.2.2.2.1 [.vint 10, .vint 20] 3 (by decide),
   c6_theorem.2.2.1 (3 / 2 : ℚ) (by norm_num)⟩

/-! ### Claim C7 (Read parse failure) -/

/-- Whether an exception is the interpreter's own runtime error
(`RuntimeErrorGlossa`). -/
def excIsGlossa : Exc → Bool
  | .err (.glossa _) => true
  | _ => false

/-- A root environment with one integer scalar `x`. -/
def c7Env : EnvT := .mk [("x", ⟨.int, none⟩)] [("x", .scalar (.vint 0))] none

/-- Initial state for the C7 run: `ΔΙΑΒΑΣΕ x` with scripted input `abc`. -/
def c7St : St where
  env := c7Env
  inputs := ["abc"]
  outputs := []
  trace := []
  procs := []
  funcs := []

/-- Claim C7, settled against the code: feeding the non-numeric line
`abc` to a `ΔΙΑΒΑΣΕ` with an integer target halts execution, but with a
bare Python `ValueError` from `int(raw)` — not with the interpreter's
`RuntimeErrorGlossa` that every other runtime error uses (and that the
spec's error taxonomy prescribes for input parse failures). -/
theorem c7_theorem :
    convertInput "abc" .int = .error .valueError ∧
    convertInput "42" .int = .ok (.vint 42) ∧
    (execStmts 10 none [.readS [.tvar "x"]] c7St).1 = .error (.err .valueError) ∧
    excIsGlossa (.err .valueError) = false ∧
    (∀ msg : String, excIsGlossa (.err (.glossa msg)) = true) :=
  ⟨rfl, rfl, rfl, rfl, fun _ => rfl⟩

/-! ### Claim C8 (Return's optional expression) -/

/-- A bare `ΕΠΙΣΤΡΕΨΕ` at the end of a function body, as a token list. -/
def c8BareToks : List Tok := [⟨"RETURN", .nul⟩, ⟨"END_FUNC", .nul⟩, ⟨"EOF", .nul⟩]

/-- `ΕΠΙΣΤΡΕΨΕ 1`, as a token list. -/
def c8ExprToks : List Tok :=
  [⟨"RETURN", .nul⟩, ⟨"NUMBER", .n (.i 1)⟩, ⟨"EOF", .nul⟩]

/-- Claim C8 counterexample: the claim says the parser accepts a
`ΕΠΙΣΤΡΕΨΕ` with no following expression; in fact `parse_statement`
unconditionally calls `parse_expr` after `ΕΠΙΣΤΡΕΨΕ`, so a bare
`ΕΠΙΣΤΡΕΨΕ` followed by `ΤΕΛΟΣ_ΣΥΝΑΡΤΗΣΗΣ` is a parse error. -/
theorem c8_counterexample :
    parseStatement 50 c8BareToks 0 =
      .error "Συντακτικό λάθος: αναμενόταν έκφραση, βρέθηκε END_FUNC" := rfl

/-- Claim C8 as amended: the `Return` AST node's expression is optional
and the executor evaluates it only when one is present (a `Return` with no
expression raises `FunctionReturn None` without evaluating anything), but
the parser always demands an expression after `ΕΠΙΣΤΡΕΨΕ` — every
successfully parsed `ΕΠΙΣΤΡΕΨΕ` statement carries `some` expression. -/
theorem c8_amended_theorem :
    (∀ (fuel : Nat) (toks : List Tok) (pos : Nat) (s : Stmt) (p : Nat),
      (curTok toks pos).kind = "RETURN" →
      parseStatement (fuel + 1) toks pos = .ok (s, p) →
      ∃ e, s = .ret (some e)) ∧
    (∀ (fuel : Nat) (dbg : Hook) (st : St),
      execStmt (fuel + 1) dbg (.ret none) st = (.error (.funcReturn none), st)) := by
  constructor
  · intro fuel toks pos s p hk hp
    simp only [parseStatement, hk] at hp
    simp only [reduceIte] at hp
    cases h2 : parseExpr fuel toks (pos + 1) with
    | error e =>
      rw [h2] at hp
      simp [Bind.bind, Except.bind] at hp
    | ok ep =>
      rw [h2] at hp
      simp only [Bind.bind, Except.bind] at hp
      refine ⟨ep.1, ?_⟩
      cases hp
      rfl
  · intro fuel dbg st
    rfl

/-- Witness for C8's amended theorem: `ΕΠΙΣΤΡΕΨΕ 1` parses to a `Return`
with `some` expression, and the executor on a `Return` without expression
raises `FunctionReturn None` directly. -/
theorem c8_witness :
    (∃ e, Stmt.ret (some (.num (.i 1))) = Stmt.ret (some e)) ∧
    execStmt 1 none (.ret none) c7St = (.error (.funcReturn none), c7St) :=
  ⟨c8_amended_theorem.1 49 c8ExprToks 0 (.ret (some (.num (.i 1)))) 2 rfl rfl,
   c8_amended_theorem.2 0 none c7St⟩

/-! ### Claim C9 (SELECT arms after a default) -/

/-- `ΕΠΙΛΕΞΕ 1` with a `ΠΕΡΙΠΤΩΣΗ ΑΛΛΙΩΣ` arm followed by a further
`ΠΕΡΙΠΤΩΣΗ 2` arm, as a token list. -/
def c9Toks : List Tok :=
  [⟨"SELECT", .nul⟩, ⟨"NUMBER", .n (.i 1)⟩, ⟨"CASE", .nul⟩, ⟨"ELSE", .nul⟩,
   ⟨"COLON", .nul⟩, ⟨"CASE", .nul⟩, ⟨"NUMBER", .n (.i 2)⟩, ⟨"COLON", .nul⟩,
   ⟨"END_SELECT", .nul⟩, ⟨"EOF", .nul⟩]

/-- `ΕΠΙΛΕΞΕ 1` with two `ΠΕΡΙΠΤΩΣΗ ΑΛΛΙΩΣ` arms, as a token list. -/
def c9TwoElse : List Tok :=
  [⟨"SELECT", .nul⟩, ⟨"NUMBER", .n (.i 1)⟩, ⟨"CASE", .nul⟩, ⟨"ELSE", .nul⟩,
   ⟨"COLON", .nul⟩, ⟨"ID", .id "x"⟩, ⟨"ASSIGN", .nul⟩, ⟨"NUMBER", .n (.i 1)⟩,
   ⟨"CASE", .nul⟩, ⟨"ELSE", .nul⟩, ⟨"COLON", .nul⟩, ⟨"ID", .id "x"⟩,
   ⟨"ASSIGN", .nul⟩, ⟨"NUMBER", .n (.i 2)⟩, ⟨"END_SELECT", .nul⟩, ⟨"EOF", .nul⟩]

/-- Claim C9 counterexample: the claim says a `CASE` arm after a
`CASE ELSE` fails with a parse error; in fact the source's arm loop keeps
going after a default, and this `SELECT` parses successfully with the
post-default arm appended to the case list. -/
theorem c9_counterexample :
    parseStatement 50 c9Toks 0 =
      .ok (.selectS (.num (.i 1)) [([.num (.i 2)], [])] (some []), 9) := rfl

/-- Claim C9 as amended: the default arm need not be last — `CASE` arms
appearing after a `CASE ELSE` are accepted, value arms being appended to
the case list, and a second `CASE ELSE` replacing the default body. -/
theorem c9_amended_theorem :
    parseStatement 50 c9Toks 0 =
      .ok (.selectS (.num (.i 1)) [([.num (.i 2)], [])] (some []), 9) ∧
    parseStatement 50 c9TwoElse 0 =
      .ok (.selectS (.num (.i 1)) []
        (some [.assign "x" none (.num (.i 2))]), 15) :=
  ⟨rfl, rfl⟩

/-! ### Claim C1 (the lexical parent of a call's environment) -/

/-- Root environment for the C1 run: global integers `x` and `y`. -/
def c1Root : EnvT :=
  .mk [("x", ⟨.int, none⟩), ("y", ⟨.int, none⟩)]
     [("x", .scalar (.vint 0)), ("y", .scalar (.vint 0))] none

/-- Procedure `B`: no parameters, no locals, body `y <- x` (both names are
free in `B`). -/
def c1ProcB : ProcDef where
  params := []
  locals := []
  body := [.assign "y" none (.var "x")]

/-- Procedure `A`: local integer `x`; body `x <- 5` then `ΚΑΛΕΣΕ B()`. -/
def c1ProcA : ProcDef where
  params := []
  locals := [("x", ⟨.int, none⟩)]
  body := [.assign "x" none (.num (.i 5)), .procCall "B" []]

/-- Initial state for the C1 run. -/
def c1St : St where
  env := c1Root
  inputs := []
  outputs := []
  trace := []
  procs := [("A", c1ProcA), ("B", c1ProcB)]
  funcs := []

/-- The C1 run: `x <- 1` then `ΚΑΛΕΣΕ A()`. -/
def c1Run : Res Unit :=
  execStmts 20 none [.assign "x" none (.num (.i 1)), .procCall "A" []] c1St

/-- Claim C1 counterexample: under the claim, `B`'s free `x` would resolve
against the root environment (where `x = 1`), making `y = 1`; the code
creates `B`'s environment with `A`'s environment as parent, so `x`
resolves to `A`'s local (`5`) and the run ends with `y = 5`. -/
theorem c1_counterexample :
    c1Run.1 = .ok () ∧
    envGet c1Run.2.env "y" none = .ok (.vint 5) ∧
    envGet c1Run.2.env "x" none = .ok (.vint 1) ∧
    Value.vint 5 ≠ Value.vint 1 :=
  ⟨rfl, rfl, rfl, by decide⟩

/-- Claim C1 as amended: the child environment a call creates has the
*caller's* environment as its lexical parent, and a name not among the
routine's parameters or locals resolves exactly as it would in the
caller's environment (through the chain of active callers up to the root —
which coincides with the global environment only for top-level calls). -/
theorem c1_amended_theorem :
    ∀ (locals : List (String × VarInfo)) (params : List (String × Ty))
      (caller child : EnvT),
      mkCallEnv locals params caller = .ok child →
      child.parent = some caller ∧
      ∀ name, alookup name (buildLocalTypes locals params) = none →
        envGetType child name = envGetType caller name := by
  intro locals params caller child h
  simp only [mkCallEnv, envNew, Except.map] at h
  cases henv : envValues (buildLocalTypes locals params) with
  | error e =>
    rw [henv] at h
    simp at h
  | ok vals =>
    rw [henv] at h
    simp only at h
    cases h
    constructor
    · rfl
    · intro name hn
      simp [envGetType, hn]

/-- Witness for C1's amended theorem at a concrete caller holding `x`. -/
theorem c1_witness :
    (EnvT.mk [] [] (some (EnvT.mk [("x", ⟨.int, none⟩)]
      [("x", .scalar (.vint 7))] none))).parent =
        some (EnvT.mk [("x", ⟨.int, none⟩)] [("x", .scalar (.vint 7))] none) ∧
    envGetType (EnvT.mk [] [] (some (EnvT.mk [("x", ⟨.int, none⟩)]
      [("x", .scalar (.vint 7))] none))) "x" =
      envGetType (EnvT.mk [("x", ⟨.int, none⟩)] [("x", .scalar (.vint 7))] none) "x" := by
  have h := c1_amended_theorem [] []
    (EnvT.mk [("x", ⟨.int, none⟩)] [("x", .scalar (.vint 7))] none)
    (EnvT.mk [] [] (some (EnvT.mk [("x", ⟨.int, none⟩)]
      [("x", .scalar (.vint 7))] none))) rfl
  exact ⟨h.1, h.2 "x" rfl⟩

/-! ### Claim C10 (argument coercion at binding time) -/

/-- Function `F(p : ΑΚΕΡΑΙΑ) : ΑΚΕΡΑΙΑ` returning its parameter. -/
def c10F : FuncDef where
  params := [("p", .int)]
  locals := []
  body := [.ret (some (.var "p"))]
  retTy := .int

/-- Function `G(p : ΠΡΑΓΜΑΤΙΚΗ) : ΠΡΑΓΜΑΤΙΚΗ` returning its parameter. -/
def c10G : FuncDef where
  params := [("p", .real)]
  locals := []
  body := [.ret (some (.var "p"))]
  retTy := .real

/-- Root environment for the C10 runs: integer `x`, real `z`. -/
def c10Env : EnvT :=
  .mk [("x", ⟨.int, none⟩), ("z", ⟨.real, none⟩)]
     [("x", .scalar (.vint 0)), ("z", .scalar (.vreal 0))] none

/-- Initial state for the C10 runs. -/
def c10St : St where
  env := c10Env
  inputs := []
  outputs := []
  trace := []
  procs := []
  funcs := [("F", c10F), ("G", c10G)]

/-- `x <- F(arg)`. -/
def c10RunF (arg : Expr) : Res Unit :=
  execStmts 10 none [.assign "x" none (.funcCall "F" [arg])] c10St

/-- `z <- G(arg)`. -/
def c10RunG (arg : Expr) : Res Unit :=
  execStmts 10 none [.assign "z" none (.funcCall "G" [arg])] c10St

/-- Claim C10: at binding time each evaluated argument is coerced to its
parameter's declared scalar type before the body runs — a real argument
for an integer parameter is truncated toward zero (floor for nonnegative,
ceiling for negative), a boolean becomes 0/1 (0.0/1.0 for a real
parameter), an integer is widened for a real parameter, and a cross-family
argument such as a string for an integer parameter raises the runtime
error `Αναμενόταν ακέραιος`.  `F`/`G` are identity functions, so the
observed result is exactly the bound parameter value. -/
theorem c10_theorem :
    (∀ q : ℚ, envGet (c10RunF (.num (.f q))).2.env "x" none =
      .ok (.vint (pyTruncRat q))) ∧
    (∀ q : ℚ, 0 ≤ q → pyTruncRat q = ⌊q⌋) ∧
    (∀ q : ℚ, q < 0 → pyTruncRat q = ⌈q⌉) ∧
    (∀ bv : Bool, envGet (c10RunF (.boolLit bv)).2.env "x" none =
      .ok (.vint (if bv then 1 else 0))) ∧
    (∀ bv : Bool, envGet (c10RunG (.boolLit bv)).2.env "z" none =
      .ok (.vreal (if bv then 1 else 0))) ∧
    (∀ n : Int, envGet (c10RunG (.num (.i n))).2.env "z" none =
      .ok (.vreal (n : ℚ))) ∧
    (c10RunF (.str "α")).1 = .error (.err (.glossa "Αναμενόταν ακέραιος")) := by
  refine ⟨fun q => rfl, fun q h => pyTruncRat_eq_floor q h,
    fun q h => pyTruncRat_eq_ceil q h, fun bv => ?_, fun bv => ?_,
    fun n => rfl, rfl⟩
  · cases bv <;> rfl
  · cases bv <;> rfl

/-- Witness for C10 at the concrete reals `7/2` and `-7/2`. -/
theorem c10_witness :
    pyTruncRat (7 / 2 : ℚ) = ⌊(7 / 2 : ℚ)⌋ ∧
    pyTruncRat (-7 / 2 : ℚ) = ⌈(-7 / 2 : ℚ)⌉ :=
  ⟨c10_theorem.2.1 (7 / 2) (by norm_num), c10_theorem.2.2.1 (-7 / 2) (by norm_num)⟩

/-! ### Claim C5 (For-loop trip count) -/

/-- The claim's trip-count formula: `max(0, floor((end-start)/step) + 1)`. -/
def iterN (a b s : Int) : Nat := (max 0 ((b - a).fdiv s + 1)).toNat

/-- Floored division by a negative divisor, rewritten through negation of
both operands (by cases on the constructors of `Int.fdiv`). -/
lemma fdiv_of_neg (x s : Int) (hs : s < 0) : x.fdiv s = (-x).fdiv (-s) := by
  cases s with
  | ofNat n => exact absurd hs (by simp)
  | negSucc n =>
    cases x with
    | ofNat m =>
      cases m with
      | zero => rfl
      | succ m => rfl
    | negSucc m => rfl

/-- With a positive step and the start already past the end, the trip
count is zero. -/
lemma iterN_zero_asc {a b s : Int} (hs : 0 < s) (h : b < a) : iterN a b s = 0 := by
  have hk : (b - a).fdiv s = (b - a) / s := Int.fdiv_eq_ediv _ hs.le
  have hneg : (b - a) / s < 0 := Int.ediv_neg' (by omega) hs
  unfold iterN
  omega

/-- With a positive step and the start not yet past the end, one trip
happens and the count recurses at `start + step`. -/
lemma iterN_succ_asc {a b s : Int} (hs : 0 < s) (h : a ≤ b) :
    iterN a b s = iterN (a + s) b s + 1 := by
  have hk : (b - a).fdiv s = (b - a) / s := Int.fdiv_eq_ediv _ hs.le
  have hk' : (b - (a + s)).fdiv s = (b - a) / s - 1 := by
    have h1 : (b - (a + s)).fdiv s = (b - (a + s)) / s := Int.fdiv_eq_ediv _ hs.le
    have h2 : b - (a + s) = (b - a) + (-1) * s := by ring
    rw [h1, h2, Int.add_mul_ediv_right _ _ hs.ne']
    ring
  have hnn : 0 ≤ (b - a) / s := Int.ediv_nonneg (by omega) hs.le
  unfold iterN
  omega

/-- With a negative step and the start already past the end (below it),
the trip count is zero. -/
lemma iterN_zero_desc {a b s : Int} (hs : s < 0) (h : a < b) : iterN a b s = 0 := by
  have hk : (b - a).fdiv s = (a - b) / (-s) := by
    rw [fdiv_of_neg _ _ hs, neg_sub]
    exact Int.fdiv_eq_ediv _ (by omega)
  have hneg : (a - b) / (-s) < 0 := Int.ediv_neg' (by omega) (by omega)
  unfold iterN
  omega

/-- With a negative step and the start not yet below the end, one trip
happens and the count recurses at `start + step`. -/
lemma iterN_succ_desc {a b s : Int} (hs : s < 0) (h : b ≤ a) :
    iterN a b s = iterN (a + s) b s + 1 := by
  have hk : (b - a).fdiv s = (a - b) / (-s) := by
    rw [fdiv_of_neg _ _ hs, neg_sub]
    exact Int.fdiv_eq_ediv _ (by omega)
  have hk' : (b - (a + s)).fdiv s = (a - b) / (-s) - 1 := by
    have h1 : (b - (a + s)).fdiv s = (-(b - (a + s))) / (-s) := by
      rw [fdiv_of_neg _ _ hs]
      exact Int.fdiv_eq_ediv _ (by omega)
    have h2 : -(b - (a + s)) = (a - b) + (-1) * (-s) := by ring
    rw [h1, h2, Int.add_mul_ediv_right _ _ (by omega : -s ≠ 0)]
    ring
  have hnn : 0 ≤ (a - b) / (-s) := Int.ediv_nonneg (by omega) (by omega)
  unfold iterN
  omega

/-- Root environment for the C5 runs: one integer scalar `i` holding `v`. -/
def envI (v : Int) : EnvT :=
  .mk [("i", ⟨.int, none⟩)] [("i", .scalar (.vint v))] none

/-- State for the C5 runs: environment `envI v`, collected outputs `outs`
(the runs attach no debugger hook). -/
def c5StOf (v : Int) (outs : List String) : St where
  env := envI v
  inputs := []
  outputs := outs
  trace := []
  procs := []
  funcs := []

/-- The loop body used to count trips: a single `ΓΡΑΨΕ "x"`, which leaves
the induction variable alone. -/
def c5Body : List Stmt := [.write [.str "x"]]

/-- `ΓΙΑ i ΑΠΟ a ΜΕΧΡΙ b ΜΕ_ΒΗΜΑ s` around `c5Body`. -/
def c5For (a b s : Int) : Stmt :=
  .forS "i" (.num (.i a)) (.num (.i b)) (some (.num (.i s))) c5Body

/-- Executing the body emits exactly one output line and leaves the
environment alone. -/
lemma c5_body_run (f : Nat) (v : Int) (outs : List String) :
    execStmts ((f + 3) + 1) none c5Body (c5StOf v outs) =
      (.ok (), c5StOf v (outs ++ ["x"])) := rfl

/-- One guarded iteration of the ascending `ΓΙΑ` loop: when the induction
value has not passed the end, the body runs once and the variable is
incremented by the step. -/
lemma c5_stepA (f : Nat) (v b s : Int) (outs : List String) (hvb : v ≤ b) :
    forLoopA ((f + 4) + 1) none "i" (.vint b) (.vint s) c5Body (c5StOf v outs) =
      forLoopA (f + 4) none "i" (.vint b) (.vint s) c5Body
        (c5StOf (v + s) (outs ++ ["x"])) := by
  have h1 : forLoopA ((f + 4) + 1) none "i" (.vint b) (.vint s) c5Body (c5StOf v outs) =
      (if decide ((v : ℚ) ≤ (b : ℚ)) then
        bindR (execStmts (f + 4) none c5Body (c5StOf v outs)) fun _ st =>
        bindR (stGet "i" none st) fun cur2 st =>
        bindR (liftE (pyAdd cur2 (.vint s)) st) fun nxt st =>
        bindR (stSet "i" nxt none st) fun _ st =>
        forLoopA (f + 4) none "i" (.vint b) (.vint s) c5Body st
       else (.ok (), c5StOf v outs)) := rfl
  have hq : decide ((v : ℚ) ≤ (b : ℚ)) = true :=
    decide_eq_true (by exact_mod_cast hvb)
  rw [h1, hq]
  rw [show ((f + 4 : Nat)) = (f + 3) + 1 from rfl, c5_body_run]
  rfl

/-- The ascending `ΓΙΑ` loop stops without running the body when the
induction value has passed the end. -/
lemma c5_stopA (f : Nat) (v b s : Int) (outs : List String) (hvb : b < v) :
    forLoopA (f + 1) none "i" (.vint b) (.vint s) c5Body (c5StOf v outs) =
      (.ok (), c5StOf v outs) := by
  have h1 : forLoopA (f + 1) none "i" (.vint b) (.vint s) c5Body (c5StOf v outs) =
      (if decide ((v : ℚ) ≤ (b : ℚ)) then
        bindR (execStmts f none c5Body (c5StOf v outs)) fun _ st =>
        bindR (stGet "i" none st) fun cur2 st =>
        bindR (liftE (pyAdd cur2 (.vint s)) st) fun nxt st =>
        bindR (stSet "i" nxt none st) fun _ st =>
        forLoopA f none "i" (.vint b) (.vint s) c5Body st
       else (.ok (), c5StOf v outs)) := rfl
  have hq : decide ((v : ℚ) ≤ (b : ℚ)) = false :=
    decide_eq_false (by exact_mod_cast not_le.mpr hvb)
  rw [h1, hq]
  rfl

/-- One guarded iteration of the descending `ΓΙΑ` loop. -/
lemma c5_stepD (f : Nat) (v b s : Int) (outs : List String) (hvb : b ≤ v) :
    forLoopD ((f + 4) + 1) none "i" (.vint b) (.vint s) c5Body (c5StOf v outs) =
      forLoopD (f + 4) none "i" (.vint b) (.vint s) c5Body
        (c5StOf (v + s) (outs ++ ["x"])) := by
  have h1 : forLoopD ((f + 4) + 1) none "i" (.vint b) (.vint s) c5Body (c5StOf v outs) =
      (if decide ((b : ℚ) ≤ (v : ℚ)) then
        bindR (execStmts (f + 4) none c5Body (c5StOf v outs)) fun _ st =>
        bindR (stGet "i" none st) fun cur2 st =>
        bindR (liftE (pyAdd cur2 (.vint s)) st) fun nxt st =>
        bindR (stSet "i" nxt none st) fun _ st =>
        forLoopD (f + 4) none "i" (.vint b) (.vint s) c5Body st
       else (.ok (), c5StOf v outs)) := rfl
  have hq : decide ((b : ℚ) ≤ (v : ℚ)) = true :=
    decide_eq_true (by exact_mod_cast hvb)
  rw [h1, hq]
  rw [show ((f + 4 : Nat)) = (f + 3) + 1 from rfl, c5_body_run]
  rfl

/-- The descending `ΓΙΑ` loop stops without running the body when the
induction value has passed below the end. -/
lemma c5_stopD (f : Nat) (v b s : Int) (outs : List String) (hvb : v < b) :
    forLoopD (f + 1) none "i" (.vint b) (.vint s) c5Body (c5StOf v outs) =
      (.ok (), c5StOf v outs) := by
  have h1 : forLoopD (f + 1) none "i" (.vint b) (.vint s) c5Body (c5StOf v outs) =
      (if decide ((b : ℚ) ≤ (v : ℚ)) then
        bindR (execStmts f none c5Body (c5StOf v outs)) fun _ st =>
        bindR (stGet "i" none st) fun cur2 st =>
        bindR (liftE (pyAdd cur2 (.vint s)) st) fun nxt st =>
        bindR (stSet "i" nxt none st) fun _ st =>
        forLoopD f none "i" (.vint b) (.vint s) c5Body st
       else (.ok (), c5StOf v outs)) := rfl
  have hq : decide ((b : ℚ) ≤ (v : ℚ)) = false :=
    decide_eq_false (by exact_mod_cast not_le.mpr hvb)
  rw [h1, hq]
  rfl

/-- The ascending loop runs its body exactly `iterN v b s` times, leaving
the induction variable at `v + s * iterN v b s`. -/
lemma c5_loopA (b s : Int) (hs : 0 < s) :
    ∀ (n g : Nat) (v : Int) (outs : List String),
      iterN v b s = n →
      forLoopA ((n + g + 4) + 1) none "i" (.vint b) (.vint s) c5Body (c5StOf v outs) =
        (.ok (), c5StOf (v + s * n) (outs ++ List.replicate n "x")) := by
  intro n
  induction n with
  | zero =>
    intro g v outs hc
    have hvb : b < v := by
      by_contra hnb
      rw [iterN_succ_asc hs (by omega)] at hc
      omega
    rw [c5_stopA _ _ _ _ _ hvb]
    simp
  | succ n ih =>
    intro g v outs hc
    have hvb : v ≤ b := by
      by_contra hnb
      rw [iterN_zero_asc hs (by omega)] at hc
      omega
    have hc' : iterN (v + s) b s = n := by
      have := iterN_succ_asc hs hvb
      omega
    have hfuel : (n + 1) + g + 4 = (n + g + 4) + 1 := by omega
    rw [show ((n + 1) + g + 4) + 1 = ((n + 1 + g) + 4) + 1 from rfl]
    rw [c5_stepA _ _ _ _ _ hvb]
    rw [show (n + 1 + g) + 4 = (n + g + 4) + 1 from by omega]
    rw [ih g (v + s) (outs ++ ["x"]) hc']
    have harith : (v + s) + s * (n : Int) = v + s * ((n : Int) + 1) := by ring
    have hcast : ((n + 1 : Nat) : Int) = (n : Int) + 1 := by push_cast; ring
    rw [hcast, ← harith]
    simp [List.replicate_succ]

/-- The descending loop runs its body exactly `iterN v b s` times, leaving
the induction variable at `v + s * iterN v b s`. -/
lemma c5_loopD (b s : Int) (hs : s < 0) :
    ∀ (n g : Nat) (v : Int) (outs : List String),
      iterN v b s = n →
      forLoopD ((n + g + 4) + 1) none "i" (.vint b) (.vint s) c5Body (c5StOf v outs) =
        (.ok (), c5StOf (v + s * n) (outs ++ List.replicate n "x")) := by
  intro n
  induction n with
  | zero =>
    intro g v outs hc
    have hvb : v < b := by
      by_contra hnb
      rw [iterN_succ_desc hs (by omega)] at hc
      omega
    rw [c5_stopD _ _ _ _ _ hvb]
    simp
  | succ n ih =>
    intro g v outs hc
    have hvb : b ≤ v := by
      by_contra hnb
      rw [iterN_zero_desc hs (by omega)] at hc
      omega
    have hc' : iterN (v + s) b s = n := by
      have := iterN_succ_desc hs hvb
      omega
    rw [show ((n + 1) + g + 4) + 1 = ((n + 1 + g) + 4) + 1 from rfl]
    rw [c5_stepD _ _ _ _ _ hvb]
    rw [show (n + 1 + g) + 4 = (n + g + 4) + 1 from by omega]
    rw [ih g (v + s) (outs ++ ["x"]) hc']
    have harith : (v + s) + s * (n : Int) = v + s * ((n : Int) + 1) := by ring
    have hcast : ((n + 1 : Nat) : Int) = (n : Int) + 1 := by push_cast; ring
    rw [hcast, ← harith]
    simp [List.replicate_succ]

/-- Claim C5: for a `ΓΙΑ` loop whose start, end and step expressions are
evaluated once at entry to the integers `a`, `b`, `s` with `s ≠ 0`, the
body executes exactly `max(0, floor((end-start)/step) + 1)` times (the
same formula covers `s > 0`, iterating while `i ≤ b`, and `s < 0`,
iterating while `i ≥ b`); the induction variable is assigned the start
value before the first test (so even a zero-trip loop leaves `i = a`) and
is incremented by the step through a normal assignment after each
iteration, ending at `a + s * trips`.  The body emits one output line per
trip, so the output list's length is the trip count. -/
theorem c5_theorem :
    ∀ (a b s : Int) (g : Nat), s ≠ 0 →
      execStmt (iterN a b s + g + 6) none (c5For a b s) (c5StOf 0 []) =
        (.ok (), c5StOf (a + s * iterN a b s)
          (List.replicate (iterN a b s) "x")) := by
  intro a b s g hs
  have hsplit : iterN a b s + g + 6 = (((iterN a b s + g + 4) + 1)) + 1 := by omega
  rw [hsplit]
  have h0 : execStmt (((iterN a b s + g + 4) + 1) + 1) none (c5For a b s) (c5StOf 0 []) =
      (if decide ((0 : ℚ) ≤ (s : ℚ)) then
        forLoopA ((iterN a b s + g + 4) + 1) none "i" (.vint b) (.vint s) c5Body
          (c5StOf a [])
       else
        forLoopD ((iterN a b s + g + 4) + 1) none "i" (.vint b) (.vint s) c5Body
          (c5StOf a [])) := rfl
  rw [h0]
  rcases lt_or_gt_of_ne hs with hneg | hpos
  · have hq : decide ((0 : ℚ) ≤ (s : ℚ)) = false :=
      decide_eq_false (by exact_mod_cast not_le.mpr hneg)
    rw [hq]
    show forLoopD ((iterN a b s + g + 4) + 1) none "i" (.vint b) (.vint s) c5Body
        (c5StOf a []) = _
    rw [c5_loopD b s hneg (iterN a b s) g a [] rfl]
    simp
  · have hq : decide ((0 : ℚ) ≤ (s : ℚ)) = true :=
      decide_eq_true (by exact_mod_cast hpos.le)
    rw [hq]
    show forLoopA ((iterN a b s + g + 4) + 1) none "i" (.vint b) (.vint s) c5Body
        (c5StOf a []) = _
    rw [c5_loopA b s hpos (iterN a b s) g a [] rfl]
    simp

/-- Witness for C5 at `ΓΙΑ i ΑΠΟ 1 ΜΕΧΡΙ 3 ΜΕ_ΒΗΜΑ 1` (three trips). -/
theorem c5_witness :
    execStmt (iterN 1 3 1 + 0 + 6) none (c5For 1 3 1) (c5StOf 0 []) =
      (.ok (), c5StOf (1 + 1 * iterN 1 3 1) (List.replicate (iterN 1 3 1) "x")) :=
  c5_theorem 1 3 1 0 (by decide)

/-! ### Claim C4 (debugger bracketing) -/

/-- The key well-formedness relation for debugger traces: `st'` extends
`st`'s trace by a block in which `after` callbacks never outnumber
`before` callbacks. -/
def TraceOK (st st' : St) : Prop :=
  ∃ Δ, st'.trace = st.trace ++ Δ ∧ nAfter Δ ≤ nBefore Δ

lemma nBefore_append (l1 l2 : List Ev) :
    nBefore (l1 ++ l2) = nBefore l1 + nBefore l2 := by
  induction l1 with
  | nil => simp [nBefore]
  | cons h t ih => cases h <;> simp [nBefore, ih, Nat.add_right_comm]

lemma nAfter_append (l1 l2 : List Ev) :
    nAfter (l1 ++ l2) = nAfter l1 + nAfter l2 := by
  induction l1 with
  | nil => simp [nAfter]
  | cons h t ih => cases h <;> simp [nAfter, ih, Nat.add_right_comm]

lemma traceOK_of_eq {st st' : St} (h : st'.trace = st.trace) : TraceOK st st' :=
  ⟨[], by simp [h], le_refl _⟩

lemma TraceOK.trans {a b c : St} (h1 : TraceOK a b) (h2 : TraceOK b c) :
    TraceOK a c := by
  obtain ⟨d1, e1, f1⟩ := h1
  obtain ⟨d2, e2, f2⟩ := h2
  refine ⟨d1 ++ d2, ?_, ?_⟩
  · rw [e2, e1, List.append_assoc]
  · rw [nAfter_append, nBefore_append]
    omega

lemma traceOK_bindR {α β : Type} {st : St} (x : Res α) (k : α → St → Res β)
    (hx : TraceOK st x.2) (hk : ∀ a s', TraceOK s' (k a s').2) :
    TraceOK st (bindR x k).2 := by
  obtain ⟨r, st1⟩ := x
  cases r with
  | ok a => exact hx.trans (hk a st1)
  | error e => exact hx

lemma stSet_trace (name : String) (v : Value) (idxs : Option (List Int)) (st : St) :
    (stSet name v idxs st).2.trace = st.trace := by
  cases h : envSet st.env name v idxs <;> simp [stSet, h]

lemma stGet_trace (name : String) (idxs : Option (List Int)) (st : St) :
    (stGet name idxs st).2.trace = st.trace := by
  cases h : envGet st.env name idxs <;> simp [stGet, liftE, h]

lemma liftE_trace {α : Type} (x : Except PyErr α) (st : St) :
    (liftE x st).2.trace = st.trace := by
  cases x <;> rfl

lemma ioRead_trace (st : St) : (ioRead st).2.trace = st.trace := by
  cases h : st.inputs <;> simp [ioRead, h]

lemma traceOK_popEnv {a b : St} (h : TraceOK a b) : TraceOK a (popEnv b) := by
  obtain ⟨d, e, f⟩ := h
  exact ⟨d, e, f⟩

lemma traceOK_dbgBefore (dbg : Hook) (s : Stmt) (st : St) :
    TraceOK st (dbgBefore dbg s st).2 := by
  cases dbg with
  | none => exact traceOK_of_eq rfl
  | some f =>
    have h : (dbgBefore (some f) s st).2 =
        { st with trace := st.trace ++ [Ev.before s] } := by
      by_cases hc : f (nBefore st.trace) = true <;> simp [dbgBefore, hc]
    rw [h]
    exact ⟨[Ev.before s], rfl, by simp [nAfter, nBefore]⟩

/-- Trace well-formedness of every interpreter entry point: any execution
fragment appends a block of callback events in which `after` callbacks
never outnumber `before` callbacks (so no statement ever receives an
`after` without its `before`), across all nested routine invocations. -/
lemma traceOK_all : ∀ fuel : Nat,
    (∀ dbg e st, TraceOK st (evalE fuel dbg e st).2) ∧
    (∀ dbg es st, TraceOK st (evalList fuel dbg es st).2) ∧
    (∀ dbg es st, TraceOK st (evalIdxs fuel dbg es st).2) ∧
    (∀ dbg s st, TraceOK st (execStmt fuel dbg s st).2) ∧
    (∀ dbg ss st, TraceOK st (execStmts fuel dbg ss st).2) ∧
    (∀ dbg name args st, TraceOK st (callProc fuel dbg name args st).2) ∧
    (∀ dbg name args st, TraceOK st (callFunc fuel dbg name args st).2) ∧
    (∀ dbg c b st, TraceOK st (whileLoop fuel dbg c b st).2) ∧
    (∀ dbg b c st, TraceOK st (repeatLoop fuel dbg b c st).2) ∧
    (∀ dbg v e s b st, TraceOK st (forLoopA fuel dbg v e s b st).2) ∧
    (∀ dbg v e s b st, TraceOK st (forLoopD fuel dbg v e s b st).2) ∧
    (∀ dbg tv cs st, TraceOK st (selectCases fuel dbg tv cs st).2) ∧
    (∀ dbg tv vs st, TraceOK st (selectVals fuel dbg tv vs st).2) ∧
    (∀ dbg ts st, TraceOK st (readTargets fuel dbg ts st).2) := by
  intro fuel
  induction fuel with
  | zero =>
    exact ⟨fun _ _ _ => traceOK_of_eq rfl, fun _ _ _ => traceOK_of_eq rfl,
      fun _ _ _ => traceOK_of_eq rfl, fun _ _ _ => traceOK_of_eq rfl,
      fun _ _ _ => traceOK_of_eq rfl, fun _ _ _ _ => traceOK_of_eq rfl,
      fun _ _ _ _ => traceOK_of_eq rfl, fun _ _ _ _ => traceOK_of_eq rfl,
      fun _ _ _ _ => traceOK_of_eq rfl, fun _ _ _ _ _ _ => traceOK_of_eq rfl,
      fun _ _ _ _ _ _ => traceOK_of_eq rfl, fun _ _ _ _ => traceOK_of_eq rfl,
      fun _ _ _ _ => traceOK_of_eq rfl, fun _ _ _ => traceOK_of_eq rfl⟩
  | succ n ih =>
    obtain ⟨ihE, ihEL, ihEI, ihS, ihSS, ihCP, ihCF, ihW, ihR, ihFA, ihFD,
      ihSC, ihSV, ihRT⟩ := ih
    refine ⟨?_, ?_, ?_, ?_, ?_, ?_, ?_, ?_, ?_, ?_, ?_, ?_, ?_, ?_⟩
    -- evalE
    · intro dbg e st
      cases e with
      | num v => cases v <;> exact traceOK_of_eq rfl
      | str s => exact traceOK_of_eq rfl
      | boolLit b => exact traceOK_of_eq rfl
      | var name => exact traceOK_of_eq (stGet_trace name none st)
      | arrayRef name idxs =>
        exact traceOK_bindR _ _ (ihEI dbg idxs st)
          (fun a s' => traceOK_of_eq (stGet_trace name (some a) s'))
      | funcCall name args => exact ihCF dbg name args st
      | unOp op e1 =>
        refine traceOK_bindR _ _ (ihE dbg e1 st) (fun v s' => ?_)
        cases op with
        | neg => exact traceOK_of_eq (liftE_trace _ s')
        | pos => exact traceOK_of_eq (liftE_trace _ s')
        | lnot => exact traceOK_of_eq rfl
      | binOp op l r =>
        refine traceOK_bindR _ _ (ihE dbg l st) (fun lv s1 => ?_)
        exact traceOK_bindR _ _ (ihE dbg r s1)
          (fun rv s2 => traceOK_of_eq (liftE_trace _ s2))
    -- evalList
    · intro dbg es st
      cases es with
      | nil => exact traceOK_of_eq rfl
      | cons e rest =>
        refine traceOK_bindR _ _ (ihE dbg e st) (fun v s1 => ?_)
        exact traceOK_bindR _ _ (ihEL dbg rest s1)
          (fun vs s2 => traceOK_of_eq rfl)
    -- evalIdxs
    · intro dbg es st
      cases es with
      | nil => exact traceOK_of_eq rfl
      | cons e rest =>
        refine traceOK_bindR _ _ (ihE dbg e st) (fun v s1 => ?_)
        refine traceOK_bindR _ _ (traceOK_of_eq (liftE_trace _ s1)) (fun i s2 => ?_)
        exact traceOK_bindR _ _ (ihEI dbg rest s2)
          (fun is s3 => traceOK_of_eq rfl)
    -- execStmt
    · intro dbg s st
      cases s with
      | assign name idxsE e =>
        refine traceOK_bindR _ _ (ihE dbg e st) (fun v s1 => ?_)
        cases idxsE with
        | none => exact traceOK_of_eq (stSet_trace _ _ _ _)
        | some ies =>
          exact traceOK_bindR _ _ (ihEI dbg ies s1)
            (fun is s2 => traceOK_of_eq (stSet_trace _ _ _ _))
      | write es =>
        exact traceOK_bindR _ _ (ihEL dbg es st) (fun vs s1 => traceOK_of_eq rfl)
      | readS targets => exact ihRT dbg targets st
      | procCall name args => exact ihCP dbg name args st
      | ret e? =>
        cases e? with
        | some e =>
          exact traceOK_bindR _ _ (ihE dbg e st) (fun v s1 => traceOK_of_eq rfl)
        | none => exact traceOK_of_eq rfl
      | ifS cond tb eb =>
        refine traceOK_bindR _ _ (ihE dbg cond st) (fun c s1 => ?_)
        by_cases hb : pyTruthy c = true
        · rw [if_pos hb]
          exact ihSS dbg tb s1
        · rw [if_neg hb]
          cases eb with
          | some els => exact ihSS dbg els s1
          | none => exact traceOK_of_eq rfl
      | whileS cond body => exact ihW dbg cond body st
      | repeatS body cond => exact ihR dbg body cond st
      | selectS scrut cases' dflt =>
        refine traceOK_bindR _ _ (ihE dbg scrut st) (fun tv s1 => ?_)
        refine traceOK_bindR _ _ (ihSC dbg tv cases' s1) (fun m s2 => ?_)
        by_cases hm : m = true
        · rw [if_pos hm]
          exact traceOK_of_eq rfl
        · rw [if_neg hm]
          cases dflt with
          | some d => exact ihSS dbg d s2
          | none => exact traceOK_of_eq rfl
      | forS v startE stopE stepE body =>
        refine traceOK_bindR _ _ (ihE dbg startE st) (fun sv s1 => ?_)
        refine traceOK_bindR _ _ (ihE dbg stopE s1) (fun stopV s2 => ?_)
        have hstep : ∀ s' : St, TraceOK s'
            ((match stepE with
              | some se => evalE n dbg se s'
              | none => (.ok (.vint 1), s')) : Res Value).2 := by
          intro s'
          cases stepE with
          | some se => exact ihE dbg se s'
          | none => exact traceOK_of_eq rfl
        refine traceOK_bindR _ _ (hstep s2) (fun stepV s3 => ?_)
        refine traceOK_bindR _ _ (traceOK_of_eq (stSet_trace _ _ _ _)) (fun _ s4 => ?_)
        refine traceOK_bindR _ _ (traceOK_of_eq (liftE_trace _ s4)) (fun asc s5 => ?_)
        by_cases ha : asc = true
        · rw [if_pos ha]
          exact ihFA dbg v stopV stepV body s5
        · rw [if_neg ha]
          exact ihFD dbg v stopV stepV body s5
    -- execStmts
    · intro dbg ss st
      cases ss with
      | nil => exact traceOK_of_eq rfl
      | cons s rest =>
        cases dbg with
        | none =>
          show TraceOK st (bindR (execStmt n none s st) fun _ st2 =>
            bindR (dbgAfter none s st2) fun _ st3 =>
              execStmts n none rest st3).2
          refine traceOK_bindR _ _ (ihS none s st) (fun _ s2 => ?_)
          exact traceOK_bindR _ _ (traceOK_of_eq rfl)
            (fun _ s3 => ihSS none rest s3)
        | some f =>
          by_cases hstop : f (nBefore st.trace) = true
          · have hb : dbgBefore (some f) s st =
                (.error .debugStop, { st with trace := st.trace ++ [Ev.before s] }) := by
              simp [dbgBefore, hstop]
            have hrun : execStmts (n + 1) (some f) (s :: rest) st =
                (.error .debugStop, { st with trace := st.trace ++ [Ev.before s] }) := by
              show (bindR (dbgBefore (some f) s st) _ : Res Unit) = _
              rw [hb]
              rfl
            rw [hrun]
            exact ⟨[Ev.before s], rfl, by simp [nAfter, nBefore]⟩
          · have hb : dbgBefore (some f) s st =
                (.ok (), { st with trace := st.trace ++ [Ev.before s] }) := by
              simp [dbgBefore, hstop]
            have hrun : execStmts (n + 1) (some f) (s :: rest) st =
                bindR (execStmt n (some f) s
                  { st with trace := st.trace ++ [Ev.before s] }) fun _ st2 =>
                bindR (dbgAfter (some f) s st2) fun _ st3 =>
                  execStmts n (some f) rest st3 := by
              show (bindR (dbgBefore (some f) s st) _ : Res Unit) = _
              rw [hb]
              rfl
            rw [hrun]
            rcases hx : execStmt n (some f) s
              { st with trace := st.trace ++ [Ev.before s] } with ⟨r, st2⟩
            have h2 : TraceOK { st with trace := st.trace ++ [Ev.before s] } st2 := by
              have h0 := ihS (some f) s { st with trace := st.trace ++ [Ev.before s] }
              rw [hx] at h0
              exact h0
            obtain ⟨d2, e2, f2⟩ := h2
            cases r with
            | ok u =>
              have h4 := ihSS (some f) rest
                { st2 with trace := st2.trace ++ [Ev.after s] }
              obtain ⟨d4, e4, f4⟩ := h4
              refine ⟨[Ev.before s] ++ (d2 ++ ([Ev.after s] ++ d4)), ?_, ?_⟩
              · show (execStmts n (some f) rest
                  { st2 with trace := st2.trace ++ [Ev.after s] }).2.trace = _
                rw [e4]
                show (st2.trace ++ [Ev.after s]) ++ d4 = _
                rw [e2]
                show ((st.trace ++ [Ev.before s]) ++ d2 ++ [Ev.after s]) ++ d4 = _
                simp [List.append_assoc]
              · simp [nAfter_append, nBefore_append, nAfter, nBefore]
                omega
            | error exc =>
              refine ⟨[Ev.before s] ++ d2, ?_, ?_⟩
              · show st2.trace = _
                rw [e2]
                show (st.trace ++ [Ev.before s]) ++ d2 = _
                simp [List.append_assoc]
              · simp [nAfter_append, nBefore_append, nAfter, nBefore]
                omega
    -- callProc
    · intro dbg name args st
      simp only [callProc]
      cases hpr : alookup name st.procs with
      | none => exact traceOK_of_eq rfl
      | some proc =>
        dsimp only
        by_cases harity : args.length ≠ proc.params.length
        · rw [if_pos harity]
          exact traceOK_of_eq rfl
        · rw [if_neg harity]
          refine traceOK_bindR _ _ (ihEL dbg args st) (fun vals s1 => ?_)
          refine traceOK_bindR _ _ (traceOK_of_eq (liftE_trace _ s1)) (fun child s2 => ?_)
          refine traceOK_bindR _ _ (traceOK_of_eq (liftE_trace _ s2)) (fun child' s3 => ?_)
          rcases hx : execStmts n dbg proc.body { s3 with env := child' } with ⟨r, st'⟩
          have hss : TraceOK s3 st' := by
            have h0 := ihSS dbg proc.body { s3 with env := child' }
            rw [hx] at h0
            exact h0
          cases r with
          | ok u => exact traceOK_popEnv hss
          | error exc => cases exc <;> exact traceOK_popEnv hss
    -- callFunc
    · intro dbg name args st
      simp only [callFunc]
      cases hpr : alookup name st.funcs with
      | none => exact traceOK_of_eq rfl
      | some func =>
        dsimp only
        by_cases harity : args.length ≠ func.params.length
        · rw [if_pos harity]
          exact traceOK_of_eq rfl
        · rw [if_neg harity]
          refine traceOK_bindR _ _ (ihEL dbg args st) (fun vals s1 => ?_)
          refine traceOK_bindR _ _ (traceOK_of_eq (liftE_trace _ s1)) (fun child s2 => ?_)
          refine traceOK_bindR _ _ (traceOK_of_eq (liftE_trace _ s2)) (fun child' s3 => ?_)
          rcases hx : execStmts n dbg func.body { s3 with env := child' } with ⟨r, st'⟩
          have hss : TraceOK s3 st' := by
            have h0 := ihSS dbg func.body { s3 with env := child' }
            rw [hx] at h0
            exact h0
          cases r with
          | ok u => exact traceOK_popEnv hss
          | error exc =>
            cases exc with
            | funcReturn v =>
              exact (traceOK_popEnv hss).trans (traceOK_of_eq (liftE_trace _ _))
            | err e => exact traceOK_popEnv hss
            | debugStop => exact traceOK_popEnv hss
            | fuelOut => exact traceOK_popEnv hss
    -- whileLoop
    · intro dbg c b st
      refine traceOK_bindR _ _ (ihE dbg c st) (fun cv s1 => ?_)
      by_cases hc : pyTruthy cv = true
      · rw [if_pos hc]
        exact traceOK_bindR _ _ (ihSS dbg b s1) (fun _ s2 => ihW dbg c b s2)
      · rw [if_neg hc]
        exact traceOK_of_eq rfl
    -- repeatLoop
    · intro dbg b c st
      refine traceOK_bindR _ _ (ihSS dbg b st) (fun _ s1 => ?_)
      refine traceOK_bindR _ _ (ihE dbg c s1) (fun cv s2 => ?_)
      by_cases hc : pyTruthy cv = true
      · rw [if_pos hc]
        exact traceOK_of_eq rfl
      · rw [if_neg hc]
        exact ihR dbg b c s2
    -- forLoopA
    · intro dbg v e s b st
      refine traceOK_bindR _ _ (traceOK_of_eq (stGet_trace _ _ _)) (fun cur s1 => ?_)
      refine traceOK_bindR _ _ (traceOK_of_eq (liftE_trace _ s1)) (fun cont s2 => ?_)
      by_cases hc : cont = true
      · rw [if_pos hc]
        refine traceOK_bindR _ _ (ihSS dbg b s2) (fun _ s3 => ?_)
        refine traceOK_bindR _ _ (traceOK_of_eq (stGet_trace _ _ _)) (fun cur2 s4 => ?_)
        refine traceOK_bindR _ _ (traceOK_of_eq (liftE_trace _ s4)) (fun nxt s5 => ?_)
        refine traceOK_bindR _ _ (traceOK_of_eq (stSet_trace _ _ _ _)) (fun _ s6 => ?_)
        exact ihFA dbg v e s b s6
      · rw [if_neg hc]
        exact traceOK_of_eq rfl
    -- forLoopD
    · intro dbg v e s b st
      refine traceOK_bindR _ _ (traceOK_of_eq (stGet_trace _ _ _)) (fun cur s1 => ?_)
      refine traceOK_bindR _ _ (traceOK_of_eq (liftE_trace _ s1)) (fun cont s2 => ?_)
      by_cases hc : cont = true
      · rw [if_pos hc]
        refine traceOK_bindR _ _ (ihSS dbg b s2) (fun _ s3 => ?_)
        refine traceOK_bindR _ _ (traceOK_of_eq (stGet_trace _ _ _)) (fun cur2 s4 => ?_)
        refine traceOK_bindR _ _ (traceOK_of_eq (liftE_trace _ s4)) (fun nxt s5 => ?_)
        refine traceOK_bindR _ _ (traceOK_of_eq (stSet_trace _ _ _ _)) (fun _ s6 => ?_)
        exact ihFD dbg v e s b s6
      · rw [if_neg hc]
        exact traceOK_of_eq rfl
    -- selectCases
    · intro dbg tv cs st
      cases cs with
      | nil => exact traceOK_of_eq rfl
      | cons c rest =>
        refine traceOK_bindR _ _ (ihSV dbg tv c.1 st) (fun hit s1 => ?_)
        by_cases hh : hit = true
        · rw [if_pos hh]
          exact traceOK_bindR _ _ (ihSS dbg c.2 s1) (fun _ s2 => traceOK_of_eq rfl)
        · rw [if_neg hh]
          exact ihSC dbg tv rest s1
    -- selectVals
    · intro dbg tv vs st
      cases vs with
      | nil => exact traceOK_of_eq rfl
      | cons e rest =>
        refine traceOK_bindR _ _ (ihE dbg e st) (fun v s1 => ?_)
        by_cases he : pyEq v tv = true
        · rw [if_pos he]
          exact traceOK_of_eq rfl
        · rw [if_neg he]
          exact ihSV dbg tv rest s1
    -- readTargets
    · intro dbg ts st
      cases ts with
      | nil => exact traceOK_of_eq rfl
      | cons t rest =>
        refine traceOK_bindR _ _ (traceOK_of_eq (ioRead_trace st)) (fun raw s1 => ?_)
        have hconv : ∀ s' : St, TraceOK s'
            ((match t with
              | .tvar name =>
                bindR (liftE (envGetType s'.env name) s') fun info s'' =>
                bindR (liftE (convertInput raw info.ty) s'') fun v s'' =>
                stSet name v none s''
              | .tarr name idxsE =>
                bindR (liftE (envGetType s'.env name) s') fun info s'' =>
                bindR (liftE (convertInput raw info.ty) s'') fun v s'' =>
                bindR (evalIdxs n dbg idxsE s'') fun is s'' =>
                stSet name v (some is) s'') : Res Unit).2 := by
          intro s'
          cases t with
          | tvar name =>
            refine traceOK_bindR _ _ (traceOK_of_eq (liftE_trace _ s')) (fun info s2 => ?_)
            refine traceOK_bindR _ _ (traceOK_of_eq (liftE_trace _ s2)) (fun v s3 => ?_)
            exact traceOK_of_eq (stSet_trace _ _ _ _)
          | tarr name idxsE =>
            refine traceOK_bindR _ _ (traceOK_of_eq (liftE_trace _ s')) (fun info s2 => ?_)
            refine traceOK_bindR _ _ (traceOK_of_eq (liftE_trace _ s2)) (fun v s3 => ?_)
            refine traceOK_bindR _ _ (ihEI dbg idxsE s3) (fun is s4 => ?_)
            exact traceOK_of_eq (stSet_trace _ _ _ _)
        refine traceOK_bindR _ _ (hconv s1) (fun _ s2 => ihRT dbg rest s2)

/-- The `ΕΠΙΣΤΡΕΨΕ 1` statement of the C4 run. -/
def c4Ret : Stmt := .ret (some (.num (.i 1)))

/-- Function `G() : ΑΚΕΡΑΙΑ` whose body is the single `ΕΠΙΣΤΡΕΨΕ 1`. -/
def c4G : FuncDef where
  params := []
  locals := []
  body := [c4Ret]
  retTy := .int

/-- The top-level statement of the C4 run: `x <- G()`. -/
def c4Asgn : Stmt := .assign "x" none (.funcCall "G" [])

/-- Initial state for the C4 run. -/
def c4St : St where
  env := .mk [("x", ⟨.int, none⟩)] [("x", .scalar (.vint 0))] none
  inputs := []
  outputs := []
  trace := []
  procs := []
  funcs := [("G", c4G)]

/-- A debugger hook that is attached but whose observer never requests a
stop. -/
def c4Hook : Hook := some (fun _ => false)

/-- The C4 run: `x <- G()` under the never-stopping debugger hook. -/
def c4Run : Res Unit := execStmts 20 c4Hook [c4Asgn] c4St

/-- Claim C4 counterexample: with a hook attached and no stop ever
requested, the run `x <- G()` (where `G`'s body is `ΕΠΙΣΤΡΕΨΕ 1`)
completes normally, yet its callback trace is
`[before x<-G(), before ΕΠΙΣΤΡΕΨΕ, after x<-G()]`: the executed
`ΕΠΙΣΤΡΕΨΕ` receives a `before` but never its `after` (the only `after` in
the trace belongs to the assignment), because the `FunctionReturn`
exception skips the `after` call site — no stop request was involved. -/
theorem c4_counterexample :
    c4Run.1 = .ok () ∧
    c4Run.2.trace = [.before c4Asgn, .before c4Ret, .after c4Asgn] ∧
    (∀ s, Ev.after s ∈ c4Run.2.trace → s = c4Asgn) ∧
    c4Ret ≠ c4Asgn := by
  refine ⟨rfl, rfl, ?_, by simp [c4Ret, c4Asgn]⟩
  intro s hs
  rw [show c4Run.2.trace = [.before c4Asgn, .before c4Ret, .after c4Asgn]
    from rfl] at hs
  simp only [List.mem_cons, List.not_mem_nil, or_false] at hs
  rcases hs with h | h | h
  · exact absurd h (by simp)
  · exact absurd h (by simp)
  · injection h

/-- Claim C4 as amended: when a debugger hook is supplied, every statement
reached by the executor receives exactly one `before` callback; the
matching `after` callback is issued precisely when the statement's
execution completes normally.  A stop request observed in `before`
prevents the `after` — but so does any exception raised while the
statement executes: a `Return` unwinding to its function call, or a
runtime error.  Moreover, in every execution fragment (across all nested
routine invocations, any fuel, any hook), the emitted trace block never
contains more `after` callbacks than `before` callbacks. -/
theorem c4_amended_theorem :
    (∀ (fuel : Nat) (f : Nat → Bool) (s : Stmt) (rest : List Stmt) (st : St),
      f (nBefore st.trace) = false →
      execStmts (fuel + 1) (some f) (s :: rest) st =
        (match execStmt fuel (some f) s
            { st with trace := st.trace ++ [Ev.before s] } with
         | (.ok _, st2) =>
           execStmts fuel (some f) rest
             { st2 with trace := st2.trace ++ [Ev.after s] }
         | (.error e, st2) => (.error e, st2))) ∧
    (∀ (fuel : Nat) (f : Nat → Bool) (s : Stmt) (rest : List Stmt) (st : St),
      f (nBefore st.trace) = true →
      execStmts (fuel + 1) (some f) (s :: rest) st =
        (.error .debugStop, { st with trace := st.trace ++ [Ev.before s] })) ∧
    (∀ (fuel : Nat) (dbg : Hook) (ss : List Stmt) (st : St),
      ∃ Δ, (execStmts fuel dbg ss st).2.trace = st.trace ++ Δ ∧
        nAfter Δ ≤ nBefore Δ) := by
  refine ⟨?_, ?_, ?_⟩
  · intro fuel f s rest st h
    have hb : dbgBefore (some f) s st =
        (.ok (), { st with trace := st.trace ++ [Ev.before s] }) := by
      simp [dbgBefore, h]
    show (bindR (dbgBefore (some f) s st) _ : Res Unit) = _
    rw [hb]
    rcases hx : execStmt fuel (some f) s
      { st with trace := st.trace ++ [Ev.before s] } with ⟨r, st2⟩
    show (bindR (execStmt fuel (some f) s
      { st with trace := st.trace ++ [Ev.before s] }) _ : Res Unit) = _
    rw [hx]
    cases r with
    | ok u => rfl
    | error e => rfl
  · intro fuel f s rest st h
    have hb : dbgBefore (some f) s st =
        (.error .debugStop, { st with trace := st.trace ++ [Ev.before s] }) := by
      simp [dbgBefore, h]
    show (bindR (dbgBefore (some f) s st) _ : Res Unit) = _
    rw [hb]
    rfl
  · intro fuel dbg ss st
    exact (traceOK_all fuel).2.2.2.2.1 dbg ss st

/-- Witness for C4's amended theorem at a concrete statement, state and
hook (stop flag constantly false). -/
theorem c4_witness :
    (execStmts (5 + 1) (some (fun _ => false)) [Stmt.write [.str "x"]] c4St =
      (match execStmt 5 (some (fun _ => false)) (Stmt.write [.str "x"])
          { c4St with trace := c4St.trace ++ [Ev.before (Stmt.write [.str "x"])] } with
       | (.ok _, st2) =>
         execStmts 5 (some (fun _ => false)) []
           { st2 with trace := st2.trace ++ [Ev.after (Stmt.write [.str "x"])] }
       | (.error e, st2) => (.error e, st2))) ∧
    (∃ Δ, (execStmts 3 none [] c4St).2.trace = c4St.trace ++ Δ ∧
      nAfter Δ ≤ nBefore Δ) :=
  ⟨c4_amended_theorem.1 5 (fun _ => false) (Stmt.write [.str "x"]) [] c4St rfl,
   c4_amended_theorem.2.2 3 none [] c4St⟩

end Glossa
